import Mathlib

/-!
Verification development for the car-warranty customer-support agent.

The Lean definitions below are a shallow embedding of the Python sources:
`core.py` (conversation-state manager `clean_state` / `clean_state2`,
the tool-message rewrite `update_tool_messages`, the assistant loop
`Assistant.__call__`, the tool-error fallback `handle_tool_error`, and the
CCP tools `check_ccp_eligibility` / `purchase_ccp_package`),
`assistant.py` (the outer turn driver `chatloop`),
`appointment_tools.py` (`book_service_appointment`, `reschedule_appointment`),
and `notification_tools.py` (`send_email_notification`).

Strings are modelled as `List Char`.  Dates stored in the CSV record store in
`dd/mm/YYYY` format are modelled as structured day/month/year triples
(`strptime` of a stored date yields exactly that triple); `datetime`
arithmetic and comparisons are modelled on the proleptic-Gregorian day
number (rata die), which `timedelta(days=n)` shifts by `n`.
-/

namespace CarAgent

abbrev Chars := List Char

/-- Shorthand: the character list of a string literal. -/
def strL (s : String) : Chars := s.toList

/-- The double-quote character. -/
def dq : Char := Char.ofNat 34

/-- The backslash character. -/
def bsl : Char := Char.ofNat 92

/-- The newline character. -/
def nl : Char := Char.ofNat 10

/-- The space character. -/
def sp : Char := ' '

/-- The colon character. -/
def colonC : Char := ':'

/-- The comma character. -/
def commaC : Char := ','

/-- The opening-brace character. -/
def lbraceC : Char := Char.ofNat 123

/-- The closing-brace character. -/
def rbraceC : Char := Char.ofNat 125

/-- The opening-bracket character. -/
def lbrackC : Char := '['

/-- The closing-bracket character. -/
def rbrackC : Char := ']'

/-- Python `\s` whitespace class (space, tab, newline, carriage return,
vertical tab, form feed). -/
def isWs (c : Char) : Bool :=
  c.toNat == 32 || c.toNat == 9 || c.toNat == 10 || c.toNat == 13 ||
    c.toNat == 11 || c.toNat == 12

/-- `startsL pat text` : does `text` start with `pat`?  (Used to model a
regex engine attempting a literal at the current position.) -/
def startsL : Chars → Chars → Bool
  | [], _ => true
  | _ :: _, [] => false
  | p :: ps, c :: cs => p == c && startsL ps cs

/-- Python `pat in text` substring test. -/
def containsL (pat : Chars) : Chars → Bool
  | [] => startsL pat []
  | c :: s => startsL pat (c :: s) || containsL pat s

/-- Python `str.lower()` (on the ASCII range used by the source's markers). -/
def toLowerL (s : Chars) : Chars := s.map Char.toLower

/-! ### The regex scanners of `update_tool_messages` (core.py 1148-1192)

`re.findall` tries a match at every position, left to right; a successful
match records its capture group and scanning resumes at the end of the
match.  `scanGo try1 text skip` models this: `skip` counts positions still
inside the previous match. -/

/-- One `re.findall` pass: at each position attempt `try1`; on success
record the capture and resume after the match. -/
def scanGo (try1 : Chars → Option (Chars × Chars)) : Chars → Nat → List Chars
  | [], _ => []
  | _ :: s, Nat.succ k => scanGo try1 s k
  | c :: s, 0 =>
    match try1 (c :: s) with
    | some (cap, rest) => cap :: scanGo try1 s (s.length - rest.length)
    | none => scanGo try1 s 0

/-- `re.findall pat text` for our patterns. -/
def findall (try1 : Chars → Option (Chars × Chars)) (text : Chars) : List Chars :=
  scanGo try1 text 0

/-- Attempt the literal part `"key":` of the pattern, then hand the rest to
the value matcher `vp`. -/
def tryKey (vp : Chars → Option (Chars × Chars)) (key : Chars) (text : Chars) :
    Option (Chars × Chars) :=
  if startsL (dq :: key ++ [dq, colonC]) text then
    vp (text.drop (key.length + 3))
  else none

/-- The `\d` class (ASCII decimal digits). -/
def isDigitC (c : Char) : Bool :=
  48 ≤ c.toNat && c.toNat ≤ 57

/-- Value matcher for `\s*(\d+)` : skip whitespace, capture one-or-more
digits. -/
def vpNum (t : Chars) : Option (Chars × Chars) :=
  let t1 := t.dropWhile isWs
  let ds := t1.takeWhile isDigitC
  if ds.isEmpty then none else some (ds, t1.dropWhile isDigitC)

/-- Character class for the body of `(.*?)` terminated by `"` : any
character except `"` and (since `.` does not match it) newline. -/
def strBody (c : Char) : Bool := !(c == dq || c == nl)

/-- Value matcher for `\s*"(.*?)"` : skip whitespace, an opening quote, a
minimal run up to the next quote, the closing quote. -/
def vpStr (t : Chars) : Option (Chars × Chars) :=
  match t.dropWhile isWs with
  | [] => none
  | c :: t2 =>
    if c == dq then
      match t2.dropWhile strBody with
      | c2 :: rest => if c2 == dq then some (t2.takeWhile strBody, rest) else none
      | [] => none
    else none

/-- The key `booking_id`. -/
def bookingKey : Chars := ['b', 'o', 'o', 'k', 'i', 'n', 'g', '_', 'i', 'd']

/-- The key `car_id`. -/
def carKey : Chars := ['c', 'a', 'r', '_', 'i', 'd']

/-- The key `name`. -/
def nameKey : Chars := ['n', 'a', 'm', 'e']

/-- The key `start_date`. -/
def startKey : Chars := ['s', 't', 'a', 'r', 't', '_', 'd', 'a', 't', 'e']

/-- The key `end_date`. -/
def endKey : Chars := ['e', 'n', 'd', '_', 'd', 'a', 't', 'e']

/-- `re.findall(r'"booking_id":\s*(\d+)', content)`. -/
def findBookingIds (content : Chars) : List Chars :=
  findall (tryKey vpNum bookingKey) content

/-- `re.findall(r'"car_id":\s*(\d+)', content)`. -/
def findCarIds (content : Chars) : List Chars :=
  findall (tryKey vpNum carKey) content

/-- `re.findall(r'"name":\s*"(.*?)"', content)`. -/
def findNames (content : Chars) : List Chars :=
  findall (tryKey vpStr nameKey) content

/-- `re.findall(r'"start_date":\s*"(.*?)"', content)`. -/
def findStartDates (content : Chars) : List Chars :=
  findall (tryKey vpStr startKey) content

/-- `re.findall(r'"end_date":\s*"(.*?)"', content)`. -/
def findEndDates (content : Chars) : List Chars :=
  findall (tryKey vpStr endKey) content

/-- Python `int()` on a captured all-digit string. -/
def parseNat (ds : Chars) : Nat :=
  ds.foldl (fun a c => a * 10 + (c.toNat - 48)) 0

/-- Worker for decimal rendering: prepend the digits of `n` to `acc`. -/
def natDigitsGo : Nat → Nat → Chars → Chars
  | 0, _, acc => acc
  | fuel + 1, n, acc =>
    if n < 10 then Char.ofNat (48 + n % 10) :: acc
    else natDigitsGo fuel (n / 10) (Char.ofNat (48 + n % 10) :: acc)

/-- Decimal digit characters of a natural number, as Python renders an
`int` (most significant first, `0` for zero). -/
def natDigits (n : Nat) : Chars := natDigitsGo (n + 1) n []

/-- Reference form of `natDigits` through Mathlib's `Nat.digits`, used
only in proofs. -/
def specDigits (n : Nat) : Chars :=
  if n = 0 then [Char.ofNat 48]
  else ((Nat.digits 10 n).reverse.map (fun d => Char.ofNat (48 + d)))

/-! ### `json.dumps` (default options: `ensure_ascii=True`, separators
`", "` and `": "`, insertion key order) -/

/-- Lowercase hexadecimal digit. -/
def hexDigitChar (n : Nat) : Char :=
  if n < 10 then Char.ofNat (48 + n) else Char.ofNat (87 + n)

/-- A `\uXXXX` escape. -/
def uEsc (n : Nat) : Chars :=
  [bsl, 'u', hexDigitChar (n / 4096 % 16), hexDigitChar (n / 256 % 16),
    hexDigitChar (n / 16 % 16), hexDigitChar (n % 16)]

/-- How `json.dumps` writes one character of a string (escaping `"`, `\`,
control characters and, with `ensure_ascii`, everything outside
printable ASCII; astral characters become surrogate pairs). -/
def escChar (c : Char) : Chars :=
  if c == dq then [bsl, dq]
  else if c == bsl then [bsl, bsl]
  else if c == nl then [bsl, 'n']
  else if c.toNat == 13 then [bsl, 'r']
  else if c.toNat == 9 then [bsl, 't']
  else if c.toNat == 8 then [bsl, 'b']
  else if c.toNat == 12 then [bsl, 'f']
  else if c.toNat < 32 then uEsc c.toNat
  else if c.toNat ≤ 126 then [c]
  else if c.toNat < 65536 then uEsc c.toNat
  else uEsc (55296 + (c.toNat - 65536) / 1024) ++ uEsc (56320 + (c.toNat - 65536) % 1024)

/-- `json.dumps` body of a string value. -/
def escape : Chars → Chars
  | [] => []
  | c :: s => escChar c ++ escape s

/-- One entry of a serialized dict: a key with either an int or a string
value. -/
inductive EVal where
  | num (n : Nat)
  | str (s : Chars)
  deriving DecidableEq

/-- A dict entry: key and value. -/
structure Entry where
  key : Chars
  val : EVal
  deriving DecidableEq

/-- Serialized text of a value. -/
def valText (v : EVal) : Chars :=
  match v with
  | .num n => natDigits n
  | .str s => dq :: escape s ++ [dq]

/-- Serialized text of an entry: `"key": value`. -/
def entryText (e : Entry) : Chars :=
  dq :: e.key ++ [dq, colonC, sp] ++ valText e.val

/-- Entries joined by `", "`. -/
def entriesText : List Entry → Chars
  | [] => []
  | [e] => entryText e
  | e :: e2 :: es => entryText e ++ [commaC, sp] ++ entriesText (e2 :: es)

/-- One extracted booking dictionary, as `update_tool_messages` builds it
(each field present only when the corresponding capture list is long
enough; ids are `int()`-parsed). -/
structure BookingDict where
  booking_id : Option Nat
  car_id : Option Nat
  name : Option Chars
  start_date : Option Chars
  end_date : Option Chars
  deriving DecidableEq

/-- The singleton entry list contributed by an optional field. -/
def optEntry {α : Type} (o : Option α) (f : α → Entry) : List Entry :=
  match o with
  | some a => [f a]
  | none => []

/-- The dict entries in Python insertion order. -/
def dictEntries (d : BookingDict) : List Entry :=
  optEntry d.booking_id (fun n => ⟨bookingKey, EVal.num n⟩) ++
  optEntry d.car_id (fun n => ⟨carKey, EVal.num n⟩) ++
  optEntry d.name (fun s => ⟨nameKey, EVal.str s⟩) ++
  optEntry d.start_date (fun s => ⟨startKey, EVal.str s⟩) ++
  optEntry d.end_date (fun s => ⟨endKey, EVal.str s⟩)

/-- `json.dumps` of one dict. -/
def dumpDict (d : BookingDict) : Chars :=
  lbraceC :: entriesText (dictEntries d) ++ [rbraceC]

/-- Dicts joined by `", "`. -/
def dumpInner : List BookingDict → Chars
  | [] => []
  | [d] => dumpDict d
  | d :: d2 :: ds => dumpDict d ++ [commaC, sp] ++ dumpInner (d2 :: ds)

/-- `json.dumps` of the combined list. -/
def dumpList (l : List BookingDict) : Chars :=
  lbrackC :: dumpInner l ++ [rbrackC]

/-- A character that `json.dumps` copies verbatim: printable ASCII other
than the quote and the backslash. -/
def plainChar (c : Char) : Bool :=
  32 ≤ c.toNat && c.toNat ≤ 126 && !(c == dq) && !(c == bsl)

/-- A regex capture taken by one entry when its key is the scanned one. -/
def entryCapture (k : Chars) (e : Entry) : List Chars :=
  if e.key = k then
    [match e.val with
     | EVal.num n => natDigits n
     | EVal.str s => s]
  else []

/-- All captures the scan for `k` takes over an entry list. -/
def capturesList (k : Chars) (es : List Entry) : List Chars :=
  es.foldr (fun e acc => entryCapture k e ++ acc) []

/-- All captures the scan for `k` takes over one serialized dict. -/
def dictCaptures (k : Chars) (d : BookingDict) : List Chars :=
  capturesList k (dictEntries d)

/-- The string fields of a dict are plain printable ASCII. -/
def dictPlain (d : BookingDict) : Prop :=
  (∀ s, d.name = some s → ∀ c ∈ s, plainChar c = true) ∧
  (∀ s, d.start_date = some s → ∀ c ∈ s, plainChar c = true) ∧
  (∀ s, d.end_date = some s → ∀ c ∈ s, plainChar c = true)

/-- A key usable in the scan lemmas: non-empty, and free of the quote,
colon, comma and closing-brace characters. -/
def goodKey (k : Chars) : Bool :=
  !k.isEmpty && k.all (fun c =>
    !(c == dq) && !(c == colonC) && !(c == commaC) && !(c == rbraceC))

/-- Two keys differing already at their first character. -/
def keysDiffer (k k2 : Chars) : Bool :=
  match k, k2 with
  | a :: _, b :: _ => !(a == b)
  | _, _ => false

/-- The `combined_info` list: for each index below the longest capture
list, a dict of whichever fields are available at that index. -/
def combine (b c n s e : List Chars) : List BookingDict :=
  (List.range (max (max (max (max b.length c.length) n.length) s.length) e.length)).map
    (fun i =>
      { booking_id := (b.get? i).map parseNat
        car_id := (c.get? i).map parseNat
        name := n.get? i
        start_date := s.get? i
        end_date := e.get? i })

/-- `update_tool_messages` (core.py 1148-1192) acting on a tool message's
content string: extract identifier/name/date fields by regex and, when
anything was extracted, replace the content by the `json.dumps` of the
combined list. -/
def update_tool_messages (content : Chars) : Chars :=
  if (combine (findBookingIds content) (findCarIds content) (findNames content)
      (findStartDates content) (findEndDates content)).isEmpty then content
  else
    dumpList (combine (findBookingIds content) (findCarIds content) (findNames content)
      (findStartDates content) (findEndDates content))

/-! ### The session message log (core.py `State` and langchain messages)

A langchain message is a `HumanMessage`, an `AIMessage` or a
`ToolMessage`; all three carry a `content` string and a
`response_metadata` dict.  We model `response_metadata` as absent/empty
(`none`, falsy in Python) or as carrying
`token_usage.total_tokens` (`some t`).  `Assistant.__call__` also appends
the raw tuple `("user", "Respond with a real output.")` to the log, which
is none of the three message classes; `SMsg.synthetic` models exactly that
entry. -/

/-- The three langchain message classes used by the source. -/
inductive MKind where
  | human
  | ai
  | tool
  deriving DecidableEq

/-- A langchain message: class, content string, and token-usage metadata. -/
structure Msg where
  kind : MKind
  content : Chars
  meta : Option Nat
  deriving DecidableEq

/-- A state-log entry: a real message or the synthetic
`("user", "Respond with a real output.")` tuple. -/
inductive SMsg where
  | real (m : Msg)
  | synthetic
  deriving DecidableEq

/-- An `AIMessage` closing a turn: truthy `content` and truthy
`response_metadata`. -/
def isFinalAi (m : Msg) : Bool :=
  m.kind == MKind.ai && !m.content.isEmpty && m.meta.isSome

/-- The trigger that marks a tool message for id-normalization:
`('booking_id' in str(content)) or ('car_id' in str(content))`. -/
def toolTrigger (content : Chars) : Bool :=
  containsL (strL "booking_id") content || containsL (strL "car_id") content

/-- The content rewrite applied at a closed turn to each marked tool
message.  `clean_state` invokes `update_tool_messages(step)` twice on the
same (mutated) message — once inside a `print` and once for the
assignment — so the effective rewrite is the double application. -/
def updStep (m : Msg) : Msg :=
  if m.kind == MKind.tool && toolTrigger m.content then
    { m with content := update_tool_messages (update_tool_messages m.content) }
  else m

/-- `updStep` lifted to log entries (only tool messages are rewritten). -/
def updEntry (x : SMsg) : SMsg :=
  match x with
  | .real m => .real (updStep m)
  | .synthetic => .synthetic

/-- Worker for `clean_state` (core.py 1195-1243): walk the log keeping
`cleaned_messages`, `middle_steps` and the user/bot counters; at a closed
turn (equal counters) rewrite marked tool messages and drop every entry
equal (by value) to a recorded middle step. -/
def cleanStateGo : List SMsg → List SMsg → List SMsg → Nat → Nat → List SMsg
  | [], cleaned, _, _, _ => cleaned
  | x :: rest, cleaned, middle, users, bots =>
    match x with
    | .real m =>
      match m.kind with
      | .human => cleanStateGo rest (cleaned ++ [x]) middle (users + 1) bots
      | .ai =>
        if !m.content.isEmpty && m.meta.isSome then
          if users == bots + 1 then
            cleanStateGo rest
              (((cleaned ++ [x]).map updEntry).filter (fun y => !(middle.contains y)))
              [] users (bots + 1)
          else cleanStateGo rest (cleaned ++ [x]) middle users (bots + 1)
        else cleanStateGo rest (cleaned ++ [x]) (middle ++ [x]) users bots
      | .tool =>
        if toolTrigger m.content then
          cleanStateGo rest (cleaned ++ [x]) middle users bots
        else cleanStateGo rest (cleaned ++ [x]) (middle ++ [x]) users bots
    | .synthetic => cleanStateGo rest cleaned middle users bots

/-- `clean_state` (core.py 1195-1243).  Entries that are none of the three
message classes (the synthetic tuple) match no branch and are dropped. -/
def clean_state (msgs : List SMsg) : List SMsg :=
  cleanStateGo msgs [] [] 0 0

/-- Worker for `clean_state2` (core.py 1245-1279): same turn bookkeeping,
but every tool message is a middle step and no rewriting happens. -/
def cleanState2Go : List SMsg → List SMsg → List SMsg → Nat → Nat → List SMsg
  | [], cleaned, _, _, _ => cleaned
  | x :: rest, cleaned, middle, users, bots =>
    match x with
    | .real m =>
      match m.kind with
      | .human => cleanState2Go rest (cleaned ++ [x]) middle (users + 1) bots
      | .ai =>
        if !m.content.isEmpty && m.meta.isSome then
          if users == bots + 1 then
            cleanState2Go rest
              ((cleaned ++ [x]).filter (fun y => !(middle.contains y)))
              [] users (bots + 1)
          else cleanState2Go rest (cleaned ++ [x]) middle users (bots + 1)
        else cleanState2Go rest (cleaned ++ [x]) (middle ++ [x]) users bots
      | .tool => cleanState2Go rest (cleaned ++ [x]) (middle ++ [x]) users bots
    | .synthetic => cleanState2Go rest cleaned middle users bots

/-- `clean_state2` (core.py 1245-1279). -/
def clean_state2 (msgs : List SMsg) : List SMsg :=
  cleanState2Go msgs [] [] 0 0

/-- Python `l[-n:]` on a list (whole list when shorter than `n`). -/
def takeLast (n : Nat) (l : List SMsg) : List SMsg :=
  l.drop (l.length - n)

/-- Token-usage metadata of a log entry (`response_metadata` is empty on
the synthetic tuple's stand-in; real messages report their field). -/
def entryMeta (x : SMsg) : Option Nat :=
  match x with
  | .real m => m.meta
  | .synthetic => none

/-- The token-budget truncation of `Assistant.__call__`
(core.py 1293-1300): with at least two messages, read
`response_metadata['token_usage']['total_tokens']` of the second-to-last
message; keep the last 3 when `5000 < tokens < 7000`; run `clean_state2`
and keep the last 4 when `tokens > 7000`. -/
def compactAfterClassify (msgs : List SMsg) : List SMsg :=
  if msgs.length ≥ 2 then
    match entryMeta (msgs.getD (msgs.length - 2) SMsg.synthetic) with
    | some tokens =>
      if tokens < 7000 && 5000 < tokens then takeLast 3 msgs
      else if tokens > 7000 then takeLast 4 (clean_state2 msgs)
      else msgs
    | none => msgs
  else msgs

/-- The full per-iteration state preparation of `Assistant.__call__`:
`clean_state` followed by the token-budget truncation. -/
def compactPipeline (msgs : List SMsg) : List SMsg :=
  compactAfterClassify (clean_state msgs)

/-! ### The assistant loop (core.py `Assistant.__call__`, 1284-1328) -/

/-- The content of a model result: a plain string or a list of content
blocks, each with an optional `text` field. -/
inductive RContent where
  | rtext (s : Chars)
  | rblocks (bs : List (Option Chars))
  deriving DecidableEq

/-- A model invocation result: content plus whether `tool_calls` is
non-empty. -/
structure ModelResult where
  content : RContent
  toolCalls : Bool
  deriving DecidableEq

/-- One model invocation: either raises or returns a result. -/
inductive MInvoke where
  | mraise
  | mok (r : ModelResult)
  deriving DecidableEq

/-- The emptiness test of `Assistant.__call__`:
`not result.tool_calls and (not result.content or isinstance(result.content, list) and not result.content[0].get("text"))`. -/
def resultEmpty (r : ModelResult) : Bool :=
  !r.toolCalls &&
    (match r.content with
     | .rtext s => s.isEmpty
     | .rblocks [] => true
     | .rblocks (b :: _) => (b.getD []).isEmpty)

/-- What `Assistant.__call__` returns: the fixed apology message after an
invocation exception, or the valid model result together with the log
after the synthetic re-prompts were filtered out. -/
inductive LoopOut where
  | apology
  | answered (r : ModelResult) (log : List SMsg)
  deriving DecidableEq

/-- The content of the fixed apology `AIMessage` (core.py 1308). -/
def apologyContent : Chars :=
  strL "I apologize for the inconvenience. I" ++ [Char.ofNat 39] ++
    strL "m having trouble processing your request right now. Could you please try rephrasing your question or providing more details?"

/-- The re-prompt loop of `Assistant.__call__`, with the model abstracted
as the stream of outcomes of its successive invocations.  Each iteration
compacts the state, invokes the model, and either: breaks with the apology
on an exception; appends the synthetic re-prompt and loops on an empty
result; or filters lingering synthetic entries and breaks with the result.
`fuel` bounds the unrolling (the source loop has no cap); `none` means the
loop has not terminated within `fuel` iterations. -/
def assistantStep (m : Nat → MInvoke) : Nat → Nat → List SMsg → Option LoopOut
  | 0, _, _ => none
  | fuel + 1, i, msgs =>
    let s2 := compactPipeline msgs
    match m i with
    | .mraise => some LoopOut.apology
    | .mok r =>
      if resultEmpty r then assistantStep m fuel (i + 1) (s2 ++ [SMsg.synthetic])
      else some (LoopOut.answered r (s2.filter (fun x => !(x == SMsg.synthetic))))

/-- A model outcome on which the loop stops: an exception, or a result
with tool calls or non-empty textual content. -/
def terminalInvoke (x : MInvoke) : Bool :=
  match x with
  | .mraise => true
  | .mok r => !resultEmpty r

/-! ### The turn driver (assistant.py `chatloop`, 36-83) -/

/-- The last message extracted from one graph invocation: `chatloop`
defends against it being a plain string instead of a message object. -/
inductive LastMsg where
  | lstr (s : Chars)
  | lmsg (content : Chars)
  deriving DecidableEq

/-- One graph invocation as seen by `chatloop`: an exception or a final
message. -/
inductive GraphOutcome where
  | graise
  | gres (last : LastMsg)
  deriving DecidableEq

/-- The apology marker `chatloop` scans for. -/
def markerL : Chars := strL "having trouble processing"

/-- The fixed clarification string returned when the retry budget is
exhausted. -/
def clarifL : Chars := strL "Can you clarify your request please!"

/-- Worker for `chatloop`: `budget` is `max_retries - retry_count`, `i`
counts graph invocations so far.  Returns the reply and the total number
of graph invocations made. -/
def chatloopGo (g : Nat → GraphOutcome) : Nat → Nat → Chars × Nat
  | 0, i => (clarifL, i)
  | budget + 1, i =>
    match g i with
    | .graise => chatloopGo g budget (i + 1)
    | .gres (.lstr s) => (s, i + 1)
    | .gres (.lmsg content) =>
      if containsL markerL (toLowerL content) then chatloopGo g budget (i + 1)
      else (content, i + 1)

/-- `chatloop` (assistant.py 36-83) with `max_retries = 2`, abstracted
over the stream of graph-invocation outcomes; also reports how many
invocations were made. -/
def chatloop (g : Nat → GraphOutcome) : Chars × Nat :=
  chatloopGo g 2 0

/-! ### The tool dispatcher fallback (core.py 1086-1124) -/

/-- A model-issued tool call (we keep the `id` field read by the
fallback). -/
structure ToolCallRec where
  id : Chars
  deriving DecidableEq

/-- A `ToolMessage` produced by the fallback. -/
structure ToolMsgOut where
  content : Chars
  tool_call_id : Chars
  deriving DecidableEq

/-- `handle_tool_error` (core.py 1086-1097): one error `ToolMessage` per
tool call of the last message, with content
`f"Error: \x7brepr(error)\x7d\n please fix your mistakes."`; `errRepr`
stands for `repr(error)`. -/
def handle_tool_error (errRepr : Chars) (toolCalls : List ToolCallRec) : List ToolMsgOut :=
  toolCalls.map (fun tc =>
    { content := strL "Error: " ++ errRepr ++ strL "\n please fix your mistakes."
      tool_call_id := tc.id })

/-- The tool node built by `create_tool_node_with_fallback`
(core.py 1100-1124): pass the tool's own messages through on success, and
on an exception feed back the `handle_tool_error` messages. -/
def toolNodeWithFallback (run : Option (List ToolMsgOut)) (errRepr : Chars)
    (toolCalls : List ToolCallRec) : List ToolMsgOut :=
  match run with
  | some out => out
  | none => handle_tool_error errRepr toolCalls

/-! ### Dates (`datetime.strptime('%d/%m/%Y')`, `timedelta`, comparisons)

A stored `dd/mm/YYYY` date is the triple below; `rd` is its proleptic
Gregorian day number, on which `timedelta(days = n)` is `+ n` and
`datetime` comparison is `≤`/`<` of numbers. -/

/-- A calendar date as stored in the record store. -/
structure DateD where
  day : Nat
  month : Nat
  year : Nat
  deriving DecidableEq

/-- Gregorian leap year. -/
def isLeap (y : Nat) : Bool :=
  (y % 4 == 0 && y % 100 != 0) || y % 400 == 0

/-- Days in the given month. -/
def monthLen (m y : Nat) : Nat :=
  if m == 2 then (if isLeap y then 29 else 28)
  else if m == 4 || m == 6 || m == 9 || m == 11 then 30
  else 31

/-- Days from 1 January to the start of month `m`. -/
def daysBeforeMonth (m y : Nat) : Nat :=
  (match m with
   | 1 => 0 | 2 => 31 | 3 => 59 | 4 => 90 | 5 => 120 | 6 => 151
   | 7 => 181 | 8 => 212 | 9 => 243 | 10 => 273 | 11 => 304 | _ => 334) +
  (if 3 ≤ m && isLeap y then 1 else 0)

/-- Rata-die day number of a date. -/
def rd (d : DateD) : Nat :=
  365 * (d.year - 1) + (d.year - 1) / 4 - (d.year - 1) / 100 + (d.year - 1) / 400 +
    daysBeforeMonth d.month d.year + (d.day - 1)

/-- Calendar-month addition (used to phrase the claims' "plus k months";
the day is clamped to the target month's length). -/
def addMonths (d : DateD) (k : Nat) : DateD :=
  let t := d.month - 1 + k
  let y := d.year + t / 12
  let m := t % 12 + 1
  { day := min d.day (monthLen m y), month := m, year := y }

/-! ### Vehicles, CCP packages and warranties (core.py 299-535) -/

/-- A row of the vehicles table (the fields the CCP tools read). -/
structure Vehicle where
  registration : Chars
  model : Chars
  purchase_date : DateD
  current_mileage : Nat
  warranty_expiry : DateD
  has_extended_warranty : Bool
  has_ccp : Bool
  deriving DecidableEq

/-- A row of the CCP packages table. -/
structure CcpPackage where
  package_name : Chars
  duration_years : Nat
  max_kilometers : Nat
  price : Nat
  deriving DecidableEq

/-- A row of the warranties table (dates kept as day numbers; the claims
read only `status`). -/
structure Warranty where
  warranty_id : Nat
  vehicle_registration : Chars
  warranty_type : Chars
  package_type : Chars
  startRd : Nat
  endRd : Nat
  status : Chars
  price : Nat
  coverage_km : Nat
  deriving DecidableEq

/-- Result of `check_ccp_eligibility`: the `error` dict, a
`eligible: False` dict with its reason string, or a `eligible: True` dict
with the mileage-filtered package names. -/
inductive CcpResult where
  | cerror (msg : Chars)
  | notEligible (reason : Chars)
  | eligible (packages : List Chars)
  deriving DecidableEq

/-- Reason string of the extended-warranty prerequisite. -/
def extWarrantyReason : Chars :=
  strL "Extended Warranty is required before purchasing CCP. Please purchase Extended Warranty first."

/-- Reason string when the vehicle already holds CCP. -/
def alreadyCcpReason : Chars :=
  strL "Vehicle already has an active CCP package."

/-- Reason string of the expired purchase window (the source interpolates
the purchase date; we keep the fixed sentence prefix). -/
def expiredReason (purchase : DateD) : Chars :=
  strL "Purchase window expired. CCP must be purchased within 1 year 9 months of vehicle purchase date." ++
    [sp] ++ natDigits purchase.day ++ [Char.ofNat 47] ++ natDigits purchase.month ++
    [Char.ofNat 47] ++ natDigits purchase.year

/-- `check_ccp_eligibility` (core.py 299-386): look up the first vehicle
row with the registration; require extended warranty, no existing CCP, and
a current date within `purchase_date + 21*30 days`; on success filter
packages by mileage.  `currentRd` is `datetime.now()`. -/
def check_ccp_eligibility (vehicles : List Vehicle) (packages : List CcpPackage)
    (registration : Chars) (currentRd : Nat) : CcpResult :=
  match vehicles.find? (fun v => v.registration == registration) with
  | none => CcpResult.cerror (strL "Vehicle with registration not found.")
  | some v =>
    if !v.has_extended_warranty then CcpResult.notEligible extWarrantyReason
    else if v.has_ccp then CcpResult.notEligible alreadyCcpReason
    else
      let endRd := rd v.purchase_date + 21 * 30
      if currentRd > endRd then CcpResult.notEligible (expiredReason v.purchase_date)
      else
        CcpResult.eligible
          ((packages.filter (fun p => v.current_mileage < p.max_kilometers)).map
            CcpPackage.package_name)

/-- Result of `purchase_ccp_package`: the `error` dict or the success dict
(we keep the new warranty id). -/
inductive PurchaseResult where
  | perror (msg : Chars)
  | psuccess (warranty_id : Nat)
  deriving DecidableEq

/-- `max existing id + 1, or 1 if the table is empty` generation for
warranties. -/
def nextWarrantyId (warranties : List Warranty) : Nat :=
  (warranties.foldl (fun a w => max a w.warranty_id) 0) + 1

/-- The `package_map` lookup of `purchase_ccp_package`: duration in years
of a package-type string. -/
def packageYears (package_type : Chars) : Option Nat :=
  if package_type == strL "1year" then some 1
  else if package_type == strL "2year" then some 2
  else if package_type == strL "3year" then some 3
  else none

/-- `purchase_ccp_package` (core.py 388-535): verify the vehicle, the
extended-warranty prerequisite and the absence of CCP, resolve the package
by duration, append a `pending_payment` warranty row and set the vehicle's
`has_ccp` flag.  Returns the result with the updated vehicles and
warranties tables. -/
def purchase_ccp_package (vehicles : List Vehicle) (warranties : List Warranty)
    (packages : List CcpPackage) (registration : Chars) (package_type : Chars) :
    PurchaseResult × List Vehicle × List Warranty :=
  match vehicles.find? (fun v => v.registration == registration) with
  | none => (PurchaseResult.perror (strL "Vehicle with registration not found."),
      vehicles, warranties)
  | some v =>
    if !v.has_extended_warranty then
      (PurchaseResult.perror (strL "Extended Warranty is required before purchasing CCP."),
        vehicles, warranties)
    else if v.has_ccp then
      (PurchaseResult.perror alreadyCcpReason, vehicles, warranties)
    else
      match packageYears package_type with
      | none => (PurchaseResult.perror
          (strL "Invalid package type. Choose 1year, 2year, or 3year."), vehicles, warranties)
      | some yrs =>
        match packages.find? (fun p => p.duration_years == yrs) with
        | none => (PurchaseResult.perror (strL "Package not found."), vehicles, warranties)
        | some pkg =>
          let wid := nextWarrantyId warranties
          let w : Warranty :=
            { warranty_id := wid
              vehicle_registration := registration
              warranty_type := strL "ccp"
              package_type := package_type
              startRd := rd v.warranty_expiry
              endRd := rd v.warranty_expiry + pkg.duration_years * 365
              status := strL "pending_payment"
              price := pkg.price
              coverage_km := pkg.max_kilometers }
          (PurchaseResult.psuccess wid,
            vehicles.map (fun u =>
              if u.registration == registration then { u with has_ccp := true } else u),
            warranties ++ [w])

/-! ### Appointments (appointment_tools.py) -/

/-- A row of the appointments table (the fields the booking logic reads). -/
structure Appointment where
  appointment_id : Nat
  vehicle_registration : Chars
  service_center : Chars
  appointment_date : Chars
  appointment_time : Chars
  status : Chars
  deriving DecidableEq

/-- A row of the service-centers table. -/
structure ServiceCenter where
  center_name : Chars
  deriving DecidableEq

/-- A row with a `confirmed` or `pending` status. -/
def activeStatus (s : Chars) : Bool :=
  s == strL "confirmed" || s == strL "pending"

/-- Case-insensitive substring test, modelling pandas
`str.contains(name, case=False)` for a metacharacter-free pattern. -/
def centerMatches (query name : Chars) : Bool :=
  containsL (toLowerL query) (toLowerL name)

/-- Two rows occupy the same `(service_center, appointment_date,
appointment_time)` slot. -/
def sameSlot (a b : Appointment) : Bool :=
  a.service_center == b.service_center && a.appointment_date == b.appointment_date &&
    a.appointment_time == b.appointment_time

/-- Two rows do not violate slot uniqueness together: not both active on
the same slot. -/
def noConf (a b : Appointment) : Bool :=
  !(activeStatus a.status && activeStatus b.status && sameSlot a b)

/-- The spec's booking-uniqueness invariant: no two rows that are both
`confirmed`/`pending` share a slot. -/
def slotUnique : List Appointment → Bool
  | [] => true
  | a :: rest => rest.all (noConf a) && slotUnique rest

/-- `max existing id + 1, or 1 if the table is empty` generation for
appointments. -/
def nextAppointmentId (appts : List Appointment) : Nat :=
  (appts.foldl (fun a r => max a r.appointment_id) 0) + 1

/-- Result of a booking-tool call: an error dict or a success dict (we
keep the appointment id). -/
inductive BookResult where
  | berror (msg : Chars)
  | bsuccess (appointment_id : Nat)
  deriving DecidableEq

/-- The double-booking error message of `book_service_appointment` and
`reschedule_appointment`. -/
def slotBookedMsg (time date : Chars) : Chars :=
  strL "Time slot " ++ time ++ strL " on " ++ date ++ strL " is already booked"

/-- `book_service_appointment` (appointment_tools.py 126-304): verify the
vehicle and service center, reject the slot if some `confirmed`/`pending`
row already holds it, otherwise append a new `confirmed` row with the next
id.  Returns the result and the updated appointments table. -/
def book_service_appointment (appts : List Appointment) (vehicles : List Vehicle)
    (centers : List ServiceCenter) (registration center_query date time : Chars) :
    BookResult × List Appointment :=
  match vehicles.find? (fun v => v.registration == registration) with
  | none => (BookResult.berror (strL "Vehicle not found"), appts)
  | some _ =>
    match centers.find? (fun c => centerMatches center_query c.center_name) with
    | none => (BookResult.berror (strL "Service center not found"), appts)
    | some center =>
      if !(appts.filter (fun r =>
          r.service_center == center.center_name && r.appointment_date == date &&
            r.appointment_time == time && activeStatus r.status)).isEmpty then
        (BookResult.berror (slotBookedMsg time date), appts)
      else
        (BookResult.bsuccess (nextAppointmentId appts),
          appts ++ [{ appointment_id := nextAppointmentId appts
                      vehicle_registration := registration
                      service_center := center.center_name
                      appointment_date := date
                      appointment_time := time
                      status := strL "confirmed" }])

/-- `reschedule_appointment` (appointment_tools.py 390-457): find the
appointment by id, reject cancelled/completed ones, reject the new slot if
another active row holds it, then rewrite the date and time of every row
with that id (pandas `.loc` assignment). -/
def reschedule_appointment (appts : List Appointment) (appointment_id : Nat)
    (new_date new_time : Chars) : BookResult × List Appointment :=
  match appts.find? (fun r => r.appointment_id == appointment_id) with
  | none => (BookResult.berror (strL "Appointment ID not found"), appts)
  | some appt =>
    if appt.status == strL "cancelled" then
      (BookResult.berror (strL "Cannot reschedule a cancelled appointment"), appts)
    else if appt.status == strL "completed" then
      (BookResult.berror (strL "Cannot reschedule a completed appointment"), appts)
    else
      if !(appts.filter (fun r =>
          r.service_center == appt.service_center && r.appointment_date == new_date &&
            r.appointment_time == new_time && r.appointment_id != appointment_id &&
            activeStatus r.status)).isEmpty then
        (BookResult.berror (slotBookedMsg new_time new_date), appts)
      else
        (BookResult.bsuccess appointment_id,
          appts.map (fun r =>
            if r.appointment_id == appointment_id then
              { r with appointment_date := new_date, appointment_time := new_time }
            else r))

/-! ### Email notification (notification_tools.py 15-140) -/

/-- Result dict of `send_email_notification` (the fields the claim
reads). -/
structure EmailResult where
  success : Bool
  recipient : Chars
  delivery_status : Chars
  deriving DecidableEq

/-- `send_email_notification` (notification_tools.py 15-140): on a clean
SMTP run report `Delivered`; when anything in the body raises, the
`except` arm reports a mock delivery — with `success` still `True`.
`smtpRaises` abstracts whether the SMTP connection/send raised. -/
def send_email_notification (smtpRaises : Bool) (recipient_email : Chars) : EmailResult :=
  if smtpRaises then
    { success := true
      recipient := recipient_email
      delivery_status := strL "Mock delivery (configure SMTP for real delivery)" }
  else
    { success := true
      recipient := recipient_email
      delivery_status := strL "Delivered" }

/-! ### An order-preserving refinement relation

`SubRel R out inp` : `out` is obtained from `inp` by deleting some entries
and replacing each kept entry `b` by some `a` with `R a b`, in order.
This is the formal shape of "compaction never reorders; it only removes
entries or rewrites their content". -/

/-- Relational sublist: delete entries, rewrite kept ones through `R`,
never reorder. -/
inductive SubRel (R : SMsg → SMsg → Prop) : List SMsg → List SMsg → Prop
  | nil : SubRel R [] []
  | keep {a b l₁ l₂} (hab : R a b) (h : SubRel R l₁ l₂) : SubRel R (a :: l₁) (b :: l₂)
  | skip {l₁ l₂} (b : SMsg) (h : SubRel R l₁ l₂) : SubRel R l₁ (b :: l₂)

/-- The rewrite relation of the state manager: the kept entry is the
original after some number of turn-close rewrite passes. -/
def rewriteRel (a b : SMsg) : Prop :=
  ∃ k, a = updEntry^[k] b

/-- Whether a log entry is a user message. -/
def pHuman (x : SMsg) : Bool :=
  match x with
  | .real m => m.kind == MKind.human
  | .synthetic => false

/-- Number of user messages in a log. -/
def countHuman (l : List SMsg) : Nat := l.countP pHuman

/-! ### Concrete instances used by counterexamples and witnesses -/

/-- A four-message log whose second-to-last message reports exactly 7000
total tokens. -/
def c1msgs : List SMsg :=
  [SMsg.real ⟨MKind.human, strL "hi", none⟩,
   SMsg.real ⟨MKind.ai, strL "a", some 100⟩,
   SMsg.real ⟨MKind.ai, strL "b", some 7000⟩,
   SMsg.real ⟨MKind.ai, strL "c", some 50⟩]

/-- A log whose second-to-last message reports 6500 tokens (witness input
for the truncation policy). -/
def c1msgsW : List SMsg :=
  [SMsg.real ⟨MKind.human, strL "hi", none⟩,
   SMsg.real ⟨MKind.ai, strL "a", some 100⟩,
   SMsg.real ⟨MKind.ai, strL "b", some 6500⟩,
   SMsg.real ⟨MKind.ai, strL "c", some 50⟩]

/-- An appointments table with two confirmed rows sharing an
`appointment_id` at the same center (legal under the spec's slot
invariant, which mentions only slots). -/
def c3dupTable : List Appointment :=
  [⟨5, strL "V1", strL "Center A", strL "15/03/2025", strL "10:00 AM", strL "confirmed"⟩,
   ⟨5, strL "V1", strL "Center A", strL "15/03/2025", strL "11:00 AM", strL "confirmed"⟩]

/-- Witness tables for the booking scenario. -/
def c3vehicles : List Vehicle :=
  [⟨strL "MH02XX1234", strL "Swift", ⟨1, 1, 2024⟩, 5000, ⟨1, 1, 2027⟩, true, false⟩]

/-- Witness service-centers table. -/
def c3centers : List ServiceCenter := [⟨strL "Center A"⟩]

/-- A tool-message content whose extracted name contains a backslash. -/
def c5bad : Chars := strL "\"name\": \"a" ++ [bsl] ++ strL "b\""

/-- A tool-message content whose extracted name is plain ASCII. -/
def c5good : Chars := strL "\"name\": \"ok\""

/-- Witness CCP packages table. -/
def c4packages : List CcpPackage :=
  [⟨strL "CCP 1 Year", 1, 20000, 15000⟩]

/-- Witness vehicles table for the CCP claims: extended warranty, no CCP,
purchased 01/01/2024. -/
def c4vehicles : List Vehicle :=
  [⟨strL "MH02XX1234", strL "Swift", ⟨1, 1, 2024⟩, 5000, ⟨1, 1, 2027⟩, true, false⟩]

/-- Witness vehicles table without extended warranty. -/
def c4vehiclesNoExt : List Vehicle :=
  [⟨strL "MH02XX1234", strL "Swift", ⟨1, 1, 2024⟩, 5000, ⟨1, 1, 2027⟩, false, false⟩]

/-- Witness model stream: one empty result, then an exception. -/
def c8stream (k : Nat) : MInvoke :=
  if k = 0 then MInvoke.mok ⟨RContent.rtext [], false⟩ else MInvoke.mraise

/-- The vehicles table after the witness CCP purchase (`has_ccp` set). -/
def c10vehicles2 : List Vehicle :=
  [⟨strL "MH02XX1234", strL "Swift", ⟨1, 1, 2024⟩, 5000, ⟨1, 1, 2027⟩, true, true⟩]

/-- The warranty row recorded by the witness CCP purchase. -/
def c10warranty : Warranty :=
  ⟨1, strL "MH02XX1234", strL "ccp", strL "1year", rd ⟨1, 1, 2027⟩,
    rd ⟨1, 1, 2027⟩ + 365, strL "pending_payment", 15000, 20000⟩

end CarAgent

namespace CarAgent

/-! ## Theorems -/

/-! ### Generic helper lemmas -/

theorem startsL_append_self (xs ys : Chars) : startsL xs (xs ++ ys) = true := by
  induction xs with
  | nil => rfl
  | cons c cs ih => simp [startsL, ih]

theorem containsL_append_left (pat s t : Chars) (h : containsL pat t = true) :
    containsL pat (s ++ t) = true := by
  induction s with
  | nil => simpa using h
  | cons c cs ih =>
    simp only [List.cons_append, containsL, Bool.or_eq_true]
    exact Or.inr ih

/-! ### C7: the tool-error fallback -/

/-- C7: when a Domain Tool invocation raises, the fallback produces one
`ToolMessage` per tool call of the last message, each tagged with that
call's original id and whose content is exactly
`"Error: "`, the exception repr, a newline, and
`" please fix your mistakes."`; the fallback output (not a crash) is what
the tool node feeds back into the conversation. -/
theorem handle_tool_error_spec (errRepr : Chars) (toolCalls : List ToolCallRec) :
    (handle_tool_error errRepr toolCalls).map ToolMsgOut.tool_call_id =
      toolCalls.map ToolCallRec.id ∧
    (∀ out ∈ handle_tool_error errRepr toolCalls,
      out.content = strL "Error: " ++ errRepr ++ [nl] ++ strL " please fix your mistakes.") ∧
    toolNodeWithFallback none errRepr toolCalls = handle_tool_error errRepr toolCalls := by
  refine ⟨?_, ?_, rfl⟩
  · simp [handle_tool_error]
  · intro out hout
    simp only [handle_tool_error, List.mem_map] at hout
    obtain ⟨tc, _, rfl⟩ := hout
    have hsuffix : strL "\n please fix your mistakes." =
        [nl] ++ strL " please fix your mistakes." := by decide
    simp [hsuffix]

/-- Witness for C7 at a concrete exception repr and tool call. -/
theorem handle_tool_error_spec_witness :
    (handle_tool_error (strL "ValueError(1)") [⟨strL "call_1"⟩]).map ToolMsgOut.tool_call_id =
      [strL "call_1"] ∧
    ((handle_tool_error (strL "ValueError(1)") [⟨strL "call_1"⟩]).getD 0 ⟨[], []⟩).content =
      strL "Error: " ++ strL "ValueError(1)" ++ [nl] ++ strL " please fix your mistakes." := by
  have h := handle_tool_error_spec (strL "ValueError(1)") [⟨strL "call_1"⟩]
  exact ⟨h.1.trans (by decide), h.2.1 _ (by decide)⟩

/-! ### C9: email notification reports success unconditionally -/

/-- C9: `send_email_notification` always returns `success: True` — also
when the SMTP send raises, in which case the failure is reported as a mock
delivery note in `delivery_status`; it never returns `success: False`, so
the success flag cannot distinguish delivered from failed email. -/
theorem send_email_notification_spec :
    ∀ (smtpRaises : Bool) (recipient : Chars),
      (send_email_notification smtpRaises recipient).success = true ∧
      (send_email_notification true recipient).delivery_status =
        strL "Mock delivery (configure SMTP for real delivery)" ∧
      (send_email_notification smtpRaises recipient).success =
        (send_email_notification (!smtpRaises) recipient).success := by
  intro b r
  cases b <;> simp [send_email_notification]

/-! ### C2: the turn driver -/

/-- C2: `chatloop` returns a string on every path (it is a total function
into strings); when every graph invocation raises it returns exactly
`"Can you clarify your request please!"` after exactly 2 invocations, and
likewise when the extracted reply carries the apology marker on both
budgeted attempts. -/
theorem chatloop_spec :
    ∀ g : Nat → GraphOutcome,
      ((∀ i, g i = GraphOutcome.graise) → chatloop g = (clarifL, 2)) ∧
      (∀ c0 c1, g 0 = GraphOutcome.gres (LastMsg.lmsg c0) →
        g 1 = GraphOutcome.gres (LastMsg.lmsg c1) →
        containsL markerL (toLowerL c0) = true →
        containsL markerL (toLowerL c1) = true →
        chatloop g = (clarifL, 2)) := by
  intro g
  constructor
  · intro h
    simp [chatloop, chatloopGo, h 0, h 1]
  · intro c0 c1 h0 h1 m0 m1
    simp [chatloop, chatloopGo, h0, h1, m0, m1]

/-- Witness for C2: an always-raising graph and an always-apologizing
graph both end in the fixed clarification string after 2 invocations. -/
theorem chatloop_spec_witness :
    chatloop (fun _ => GraphOutcome.graise) = (clarifL, 2) ∧
    chatloop (fun _ => GraphOutcome.gres (LastMsg.lmsg markerL)) = (clarifL, 2) := by
  refine ⟨(chatloop_spec _).1 (fun i => rfl), (chatloop_spec _).2 markerL markerL rfl rfl ?_ ?_⟩ <;>
    decide

/-! ### C1: the token-budget truncation policy -/

/-- C1 (amended): with at least 2 messages after classification and the
second-to-last reporting `t` total tokens, the truncation keeps the last 3
messages when `5000 < t < 7000` (exclusive at 7000), runs the strict
compaction and keeps the last 4 when `t > 7000`, and leaves the log
untouched otherwise — in particular at exactly `t = 7000`. -/
theorem compactAfterClassify_policy (msgs : List SMsg) (m : Msg) (t : Nat)
    (hlen : 2 ≤ msgs.length)
    (hget : msgs.getD (msgs.length - 2) SMsg.synthetic = SMsg.real m)
    (hmeta : m.meta = some t) :
    compactAfterClassify msgs =
      if 5000 < t ∧ t < 7000 then takeLast 3 msgs
      else if 7000 < t then takeLast 4 (clean_state2 msgs)
      else msgs := by
  unfold compactAfterClassify
  rw [if_pos hlen, hget]
  simp only [entryMeta, hmeta]
  by_cases h1 : 5000 < t ∧ t < 7000
  · rw [if_pos (by simp [h1.1, h1.2]), if_pos h1]
  · rw [if_neg (by
      simp only [Bool.and_eq_true, decide_eq_true_eq]
      intro h
      exact h1 ⟨h.2, h.1⟩), if_neg h1]

/-! ### C4: CCP eligibility -/

/-- C4: without extended warranty, `check_ccp_eligibility` is not-eligible
with the extended-warranty-required reason regardless of dates; with
extended warranty, no CCP and purchase date 01/01/2024, it is not-eligible
with the expired-window reason at +22 months and eligible at +20 months. -/
theorem check_ccp_eligibility_spec (vehicles : List Vehicle) (packages : List CcpPackage)
    (reg : Chars) (v : Vehicle)
    (hfind : vehicles.find? (fun u => u.registration == reg) = some v) :
    (v.has_extended_warranty = false →
      ∀ currentRd, check_ccp_eligibility vehicles packages reg currentRd =
        CcpResult.notEligible extWarrantyReason) ∧
    (v.has_extended_warranty = true → v.has_ccp = false →
      v.purchase_date = ⟨1, 1, 2024⟩ →
      check_ccp_eligibility vehicles packages reg (rd (addMonths ⟨1, 1, 2024⟩ 22)) =
        CcpResult.notEligible (expiredReason ⟨1, 1, 2024⟩) ∧
      check_ccp_eligibility vehicles packages reg (rd (addMonths ⟨1, 1, 2024⟩ 20)) =
        CcpResult.eligible ((packages.filter
          (fun p => v.current_mileage < p.max_kilometers)).map CcpPackage.package_name)) := by
  constructor
  · intro hext currentRd
    unfold check_ccp_eligibility
    rw [hfind]
    simp [hext]
  · intro hext hccp hpd
    constructor
    · unfold check_ccp_eligibility
      rw [hfind]
      simp only [hext, hccp, Bool.not_true, Bool.false_eq_true, if_false]
      rw [hpd]
      rw [if_pos (by decide)]
    · unfold check_ccp_eligibility
      rw [hfind]
      simp only [hext, hccp, Bool.not_true, Bool.false_eq_true, if_false]
      rw [hpd]
      rw [if_neg (by decide)]

/-- Witness for C4 at concrete tables. -/
theorem check_ccp_eligibility_spec_witness :
    check_ccp_eligibility c4vehiclesNoExt c4packages (strL "MH02XX1234") 0 =
      CcpResult.notEligible extWarrantyReason ∧
    check_ccp_eligibility c4vehicles c4packages (strL "MH02XX1234")
      (rd (addMonths ⟨1, 1, 2024⟩ 22)) = CcpResult.notEligible (expiredReason ⟨1, 1, 2024⟩) ∧
    check_ccp_eligibility c4vehicles c4packages (strL "MH02XX1234")
      (rd (addMonths ⟨1, 1, 2024⟩ 20)) = CcpResult.eligible [strL "CCP 1 Year"] := by
  have h1 := (check_ccp_eligibility_spec c4vehiclesNoExt c4packages (strL "MH02XX1234")
    ⟨strL "MH02XX1234", strL "Swift", ⟨1, 1, 2024⟩, 5000, ⟨1, 1, 2027⟩, false, false⟩
    (by decide)).1 rfl 0
  have h2 := (check_ccp_eligibility_spec c4vehicles c4packages (strL "MH02XX1234")
    ⟨strL "MH02XX1234", strL "Swift", ⟨1, 1, 2024⟩, 5000, ⟨1, 1, 2027⟩, true, false⟩
    (by decide)).2 rfl rfl rfl
  exact ⟨h1, h2.1, by rw [h2.2]; decide⟩

/-! ### C10: purchase records pending payment but flips the CCP flag -/

/-- Looking up a registration in the vehicles table after the `has_ccp`
flag update finds the updated first match. -/
theorem find?_setCcp (vehicles : List Vehicle) (reg : Chars) (v : Vehicle)
    (h : vehicles.find? (fun u => u.registration == reg) = some v) :
    (vehicles.map (fun u =>
      if u.registration == reg then { u with has_ccp := true } else u)).find?
        (fun u => u.registration == reg) =
      some (if v.registration == reg then { v with has_ccp := true } else v) := by
  induction vehicles with
  | nil => simp at h
  | cons u rest ih =>
    cases pu : u.registration == reg with
    | true =>
      simp only [List.find?, pu] at h
      injection h with h
      subst h
      simp [List.find?, pu]
    | false =>
      simp only [List.find?, pu] at h
      simp only [List.map_cons, List.find?, pu, if_false, Bool.false_eq_true]
      exact ih h

/-- C10: a successful `purchase_ccp_package` appends a warranty row whose
status is `pending_payment` yet immediately sets the vehicle's `has_ccp`
flag, so every later `check_ccp_eligibility` or `purchase_ccp_package`
call for the same vehicle reports
"Vehicle already has an active CCP package." although payment is not
complete. -/
theorem purchase_ccp_package_spec (vehicles : List Vehicle) (warranties : List Warranty)
    (packages : List CcpPackage) (reg ptype : Chars) (wid : Nat)
    (vehicles2 : List Vehicle) (warranties2 : List Warranty)
    (hrun : purchase_ccp_package vehicles warranties packages reg ptype =
      (PurchaseResult.psuccess wid, vehicles2, warranties2)) :
    (∃ w, warranties2 = warranties ++ [w] ∧ w.status = strL "pending_payment") ∧
    (∃ v2, vehicles2.find? (fun u => u.registration == reg) = some v2 ∧ v2.has_ccp = true) ∧
    (∀ currentRd, check_ccp_eligibility vehicles2 packages reg currentRd =
      CcpResult.notEligible alreadyCcpReason) ∧
    (∀ ptype2, (purchase_ccp_package vehicles2 warranties2 packages reg ptype2).1 =
      PurchaseResult.perror alreadyCcpReason) := by
  unfold purchase_ccp_package at hrun
  split at hrun
  · simp at hrun
  next v hv =>
    split at hrun
    next hext0 => simp at hrun
    next hext0 =>
      split at hrun
      next hccp0 => simp at hrun
      next hccp0 =>
        split at hrun
        next hy => simp at hrun
        next yrs hy =>
          split at hrun
          next hp => simp at hrun
          next pkg hp =>
            simp only [Prod.mk.injEq] at hrun
            obtain ⟨h1, h2, h3⟩ := hrun
            have hext : v.has_extended_warranty = true := by
              simpa using hext0
            have hpred : (v.registration == reg) = true := by
              simpa using List.find?_some hv
            have hfind2 : vehicles2.find? (fun u => u.registration == reg) =
                some { v with has_ccp := true } := by
              rw [← h2, find?_setCcp vehicles reg v hv, if_pos hpred]
            refine ⟨⟨_, h3.symm, rfl⟩, ⟨_, hfind2, rfl⟩, ?_, ?_⟩
            · intro currentRd
              unfold check_ccp_eligibility
              rw [hfind2]
              simp [hext]
            · intro ptype2
              unfold purchase_ccp_package
              rw [hfind2]
              simp [hext]

/-- Witness for C10 at a concrete purchase. -/
theorem purchase_ccp_package_spec_witness :
    check_ccp_eligibility c10vehicles2 c4packages (strL "MH02XX1234") 0 =
      CcpResult.notEligible alreadyCcpReason ∧
    (purchase_ccp_package c10vehicles2 [c10warranty] c4packages (strL "MH02XX1234")
      (strL "1year")).1 = PurchaseResult.perror alreadyCcpReason := by
  have h := purchase_ccp_package_spec c4vehicles [] c4packages (strL "MH02XX1234")
    (strL "1year") 1 c10vehicles2 [c10warranty] (by decide)
  exact ⟨h.2.2.1 0, h.2.2.2 (strL "1year")⟩

/-! ### C3: appointment slot uniqueness -/

theorem slotUnique_iff_pairwise (l : List Appointment) :
    slotUnique l = true ↔ l.Pairwise (fun a b => noConf a b = true) := by
  induction l with
  | nil => simp [slotUnique]
  | cons a rest ih =>
    simp [slotUnique, List.pairwise_cons, ih, List.all_eq_true, and_comm]

theorem slotUnique_append_single (l : List Appointment) (a : Appointment)
    (hl : slotUnique l = true) (ha : ∀ x ∈ l, noConf x a = true) :
    slotUnique (l ++ [a]) = true := by
  induction l with
  | nil => simp [slotUnique, noConf]
  | cons x rest ih =>
    simp only [slotUnique, Bool.and_eq_true, List.all_eq_true] at hl ⊢
    refine ⟨?_, ih hl.2 (fun y hy => ha y (List.mem_cons_of_mem x hy))⟩
    intro y hy
    rcases List.mem_append.mp hy with hy | hy
    · exact hl.1 y hy
    · rcases List.mem_singleton.mp hy with rfl
      exact ha x (List.mem_cons_self x rest)

/-- Two rows are conflict-free as soon as the propositional conflict
condition fails. -/
theorem noConf_of_not (a b : Appointment)
    (h : ¬(activeStatus a.status = true ∧ activeStatus b.status = true ∧
      a.service_center = b.service_center ∧ a.appointment_date = b.appointment_date ∧
      a.appointment_time = b.appointment_time)) : noConf a b = true := by
  cases hcase : activeStatus a.status && activeStatus b.status && sameSlot a b with
  | false => simp [noConf, hcase]
  | true =>
    exfalso
    apply h
    simp only [Bool.and_eq_true, sameSlot, beq_iff_eq] at hcase
    exact ⟨hcase.1.1, hcase.1.2, hcase.2.1.1, hcase.2.1.2, hcase.2.2⟩

/-- `book_service_appointment` preserves the slot-uniqueness invariant. -/
theorem book_preserves_slotUnique (appts : List Appointment) (vehicles : List Vehicle)
    (centers : List ServiceCenter) (reg cq date time : Chars)
    (h : slotUnique appts = true) :
    slotUnique (book_service_appointment appts vehicles centers reg cq date time).2 = true := by
  unfold book_service_appointment
  split
  · exact h
  · split
    · exact h
    next center hcenter =>
      split
      · exact h
      next hfree =>
        have hempty : appts.filter (fun r =>
            r.service_center == center.center_name && r.appointment_date == date &&
              r.appointment_time == time && activeStatus r.status) = [] := by
          rcases hf : appts.filter (fun r =>
            r.service_center == center.center_name && r.appointment_date == date &&
              r.appointment_time == time && activeStatus r.status) with _ | ⟨x, xs⟩
          · exact hf
          · rw [hf] at hfree
            simp at hfree
        have hforall := List.filter_eq_nil_iff.mp hempty
        refine slotUnique_append_single appts _ h ?_
        intro x hx
        have hx2 := hforall x hx
        apply noConf_of_not
        rintro ⟨hax, hanew, hc, hd, ht⟩
        apply hx2
        simp only [Bool.and_eq_true, beq_iff_eq]
        exact ⟨⟨⟨hc, hd⟩, ht⟩, hax⟩

/-- `reschedule_appointment` preserves the slot-uniqueness invariant on
tables with pairwise-distinct appointment ids. -/
theorem reschedule_preserves_slotUnique (appts : List Appointment) (aid : Nat)
    (nd nt : Chars) (h : slotUnique appts = true)
    (hnodup : (appts.map Appointment.appointment_id).Nodup) :
    slotUnique (reschedule_appointment appts aid nd nt).2 = true := by
  unfold reschedule_appointment
  split
  · exact h
  next appt happt =>
    split
    · exact h
    split
    · exact h
    split
    · exact h
    next hfree =>
      have hempty : appts.filter (fun r =>
          r.service_center == appt.service_center && r.appointment_date == nd &&
            r.appointment_time == nt && r.appointment_id != aid && activeStatus r.status) = [] := by
        rcases hf : appts.filter (fun r =>
          r.service_center == appt.service_center && r.appointment_date == nd &&
            r.appointment_time == nt && r.appointment_id != aid && activeStatus r.status)
          with _ | ⟨x, xs⟩
        · exact hf
        · rw [hf] at hfree
          simp at hfree
      have hforall := List.filter_eq_nil_iff.mp hempty
      have happt_mem : appt ∈ appts := List.mem_of_find?_eq_some happt
      have happt_id : appt.appointment_id = aid := by
        have := List.find?_some happt
        simpa using this
      have hid_unique : ∀ x ∈ appts, x.appointment_id = aid → x = appt := by
        intro x hx hxid
        by_contra hne
        simp only [List.Nodup, List.pairwise_map] at hnodup
        exact hnodup.forall (fun a b hab => hab.symm) hx happt_mem hne
          (hxid.trans happt_id.symm)
      rw [slotUnique_iff_pairwise] at h ⊢
      rw [List.pairwise_map]
      simp only [List.Nodup, List.pairwise_map] at hnodup
      refine List.Pairwise.imp_of_mem ?_ (h.and hnodup)
      intro a b ha hb hab
      obtain ⟨hconf, hne⟩ := hab
      by_cases haid : a.appointment_id = aid
      · have haeq : a = appt := hid_unique a ha haid
        by_cases hbid : b.appointment_id = aid
        · exact absurd (haid.trans hbid.symm) hne
        · rw [if_pos (by simpa using haid), if_neg (by simpa using hbid)]
          apply noConf_of_not
          rintro ⟨hax, hbx, hc, hd, ht⟩
          apply hforall b hb
          simp only [Bool.and_eq_true, beq_iff_eq, bne_iff_ne]
          refine ⟨⟨⟨⟨?_, hd.symm⟩, ht.symm⟩, hbid⟩, hbx⟩
          rw [← hc, haeq]
      · by_cases hbid : b.appointment_id = aid
        · have hbeq : b = appt := hid_unique b hb hbid
          rw [if_neg (by simpa using haid), if_pos (by simpa using hbid)]
          apply noConf_of_not
          rintro ⟨hax, hbx, hc, hd, ht⟩
          apply hforall a ha
          simp only [Bool.and_eq_true, beq_iff_eq, bne_iff_ne]
          refine ⟨⟨⟨⟨?_, hd⟩, ht⟩, haid⟩, hax⟩
          rw [hc, hbeq]
        · rw [if_neg (by simpa using haid), if_neg (by simpa using hbid)]
          exact hconf

/-- Booking the identical center/date/time again right after a successful
booking fails with an `already booked` error and leaves the table
unchanged. -/
theorem book_twice_already_booked (appts : List Appointment) (vehicles : List Vehicle)
    (centers : List ServiceCenter) (reg cq date time : Chars) (aid : Nat)
    (appts2 : List Appointment)
    (hrun : book_service_appointment appts vehicles centers reg cq date time =
      (BookResult.bsuccess aid, appts2)) :
    ∃ e, book_service_appointment appts2 vehicles centers reg cq date time =
        (BookResult.berror e, appts2) ∧
      containsL (strL "already booked") e = true := by
  unfold book_service_appointment at hrun
  split at hrun
  · simp at hrun
  next v hv =>
    split at hrun
    · simp at hrun
    next center hcenter =>
      split at hrun
      · simp at hrun
      next hfree =>
        simp only [Prod.mk.injEq] at hrun
        obtain ⟨h1, h2⟩ := hrun
        refine ⟨slotBookedMsg time date, ?_, containsL_append_left _ _ _ (by decide)⟩
        rw [← h2]
        unfold book_service_appointment
        simp [hv, hcenter, List.filter_append, activeStatus]

/-- C3 (amended): `book_service_appointment` always preserves the
slot-uniqueness invariant, `reschedule_appointment` preserves it on every
table whose appointment ids are pairwise distinct (with duplicated ids its
pandas-`loc` bulk update can merge two active rows onto one slot), and a
second booking request for a slot just booked (status `confirmed`) returns
an error containing "already booked" and adds no appointment row. -/
theorem booking_slot_invariant (appts : List Appointment) (vehicles : List Vehicle)
    (centers : List ServiceCenter) (reg cq date time : Chars) :
    (slotUnique appts = true →
      slotUnique (book_service_appointment appts vehicles centers reg cq date time).2 = true) ∧
    (slotUnique appts = true → (appts.map Appointment.appointment_id).Nodup →
      ∀ aid nd nt, slotUnique (reschedule_appointment appts aid nd nt).2 = true) ∧
    (∀ aid appts2,
      book_service_appointment appts vehicles centers reg cq date time =
        (BookResult.bsuccess aid, appts2) →
      ∃ e, book_service_appointment appts2 vehicles centers reg cq date time =
          (BookResult.berror e, appts2) ∧
        containsL (strL "already booked") e = true) := by
  refine ⟨fun h => book_preserves_slotUnique appts vehicles centers reg cq date time h,
    fun h hnodup aid nd nt => reschedule_preserves_slotUnique appts aid nd nt h hnodup,
    fun aid appts2 hrun =>
      book_twice_already_booked appts vehicles centers reg cq date time aid appts2 hrun⟩

/-- Counterexample to C3 as stated: a table with two confirmed rows sharing
an appointment id (slot-unique, ids duplicated) loses the invariant after
`reschedule_appointment`, because the update rewrites both rows. -/
theorem reschedule_duplicate_id_counterexample :
    slotUnique c3dupTable = true ∧
    slotUnique (reschedule_appointment c3dupTable 5 (strL "15/03/2025")
      (strL "02:00 PM")).2 = false := by
  decide

/-- Witness for C3 at a concrete first-and-second booking. -/
theorem booking_slot_invariant_witness :
    slotUnique (book_service_appointment [] c3vehicles c3centers (strL "MH02XX1234")
      (strL "Center A") (strL "15/03/2025") (strL "10:00 AM")).2 = true ∧
    ∃ e, book_service_appointment
        (book_service_appointment [] c3vehicles c3centers (strL "MH02XX1234")
          (strL "Center A") (strL "15/03/2025") (strL "10:00 AM")).2
        c3vehicles c3centers (strL "MH02XX1234") (strL "Center A") (strL "15/03/2025")
        (strL "10:00 AM") =
        (BookResult.berror e,
          (book_service_appointment [] c3vehicles c3centers (strL "MH02XX1234")
            (strL "Center A") (strL "15/03/2025") (strL "10:00 AM")).2) ∧
      containsL (strL "already booked") e = true := by
  have h := booking_slot_invariant [] c3vehicles c3centers (strL "MH02XX1234")
    (strL "Center A") (strL "15/03/2025") (strL "10:00 AM")
  exact ⟨h.1 rfl, h.2.2 1 _ (by decide)⟩

/-- Counterexample to C1 as stated: at exactly 7000 tokens (inside the
claimed interval `(5000, 7000]`) the code performs no truncation, so the
compacted log is not the last 3 messages. -/
theorem compactAfterClassify_7000_counterexample :
    2 ≤ c1msgs.length ∧
    entryMeta (c1msgs.getD (c1msgs.length - 2) SMsg.synthetic) = some 7000 ∧
    5000 < 7000 ∧ 7000 ≤ 7000 ∧
    compactAfterClassify c1msgs ≠ takeLast 3 c1msgs := by
  decide

/-- Witness for C1 at a concrete log with 6500 tokens on the second-to-last
message. -/
theorem compactAfterClassify_policy_witness :
    compactAfterClassify c1msgsW =
      (if 5000 < 6500 ∧ 6500 < 7000 then takeLast 3 c1msgsW
       else if 7000 < 6500 then takeLast 4 (clean_state2 c1msgsW)
       else c1msgsW) := by
  exact compactAfterClassify_policy c1msgsW ⟨MKind.ai, strL "b", some 6500⟩ 6500
    (by decide) (by decide) rfl

/-! ### C6: compaction never reorders -/

theorem SubRel.append_single {R : SMsg → SMsg → Prop} {l₁ l₂ : List SMsg} {a b : SMsg}
    (h : SubRel R l₁ l₂) (hab : R a b) : SubRel R (l₁ ++ [a]) (l₂ ++ [b]) := by
  induction h with
  | nil => exact SubRel.keep hab SubRel.nil
  | keep hxy h ih => exact SubRel.keep hxy ih
  | skip c h ih => exact SubRel.skip c ih

theorem SubRel.append_skip {R : SMsg → SMsg → Prop} {l₁ l₂ : List SMsg} {b : SMsg}
    (h : SubRel R l₁ l₂) : SubRel R l₁ (l₂ ++ [b]) := by
  induction h with
  | nil => exact SubRel.skip b SubRel.nil
  | keep hxy h ih => exact SubRel.keep hxy ih
  | skip c h ih => exact SubRel.skip c ih

theorem SubRel.of_sublist {R : SMsg → SMsg → Prop} {l₀ l₁ l₂ : List SMsg}
    (hs : List.Sublist l₀ l₁) (h : SubRel R l₁ l₂) : SubRel R l₀ l₂ := by
  induction h generalizing l₀ with
  | nil =>
    have := List.sublist_nil.mp hs
    subst this
    exact SubRel.nil
  | keep hxy h ih =>
    cases hs with
    | cons _ hs => exact SubRel.skip _ (ih hs)
    | cons₂ _ hs => exact SubRel.keep hxy (ih hs)
  | skip c h ih => exact SubRel.skip c (ih hs)

theorem SubRel.map_left {R : SMsg → SMsg → Prop} {g : SMsg → SMsg} {l₁ l₂ : List SMsg}
    (hg : ∀ a b, R a b → R (g a) b) (h : SubRel R l₁ l₂) : SubRel R (l₁.map g) l₂ := by
  induction h with
  | nil => exact SubRel.nil
  | keep hxy h ih => exact SubRel.keep (hg _ _ hxy) ih
  | skip c h ih => exact SubRel.skip c ih

theorem SubRel.trans_self (R : SMsg → SMsg → Prop)
    (hcomp : ∀ a b c, R a b → R b c → R a c) :
    ∀ {l₁ l₂ l₃ : List SMsg}, SubRel R l₁ l₂ → SubRel R l₂ l₃ → SubRel R l₁ l₃ := by
  intro l₁ l₂ l₃ h12 h23
  induction h23 generalizing l₁ with
  | nil => exact h12
  | keep hbc h ih =>
    cases h12 with
    | keep hab h12 => exact SubRel.keep (hcomp _ _ _ hab hbc) (ih h12)
    | skip _ h12 => exact SubRel.skip _ (ih h12)
  | skip c h ih => exact SubRel.skip c (ih h12)

theorem SubRel.countP_le {R : SMsg → SMsg → Prop} (p : SMsg → Bool)
    (hp : ∀ a b, R a b → p a = p b) :
    ∀ {l₁ l₂ : List SMsg}, SubRel R l₁ l₂ → l₁.countP p ≤ l₂.countP p := by
  intro l₁ l₂ h
  induction h with
  | nil => exact Nat.le_refl 0
  | keep hab h ih =>
    simp only [List.countP_cons, hp _ _ hab]
    omega
  | skip b h ih =>
    simp only [List.countP_cons]
    omega

theorem rewriteRel_refl (a : SMsg) : rewriteRel a a := ⟨0, rfl⟩

theorem rewriteRel_upd {a b : SMsg} (h : rewriteRel a b) : rewriteRel (updEntry a) b := by
  obtain ⟨k, rfl⟩ := h
  exact ⟨k + 1, (Function.iterate_succ_apply' updEntry k b).symm⟩

theorem rewriteRel_trans {a b c : SMsg} (hab : rewriteRel a b) (hbc : rewriteRel b c) :
    rewriteRel a c := by
  obtain ⟨k1, rfl⟩ := hab
  obtain ⟨k2, rfl⟩ := hbc
  exact ⟨k1 + k2, (Function.iterate_add_apply updEntry k1 k2 c).symm⟩

theorem pHuman_updEntry (x : SMsg) : pHuman (updEntry x) = pHuman x := by
  cases x with
  | synthetic => rfl
  | real m =>
    simp only [updEntry, pHuman, updStep]
    split <;> rfl

theorem pHuman_rewriteRel {a b : SMsg} (h : rewriteRel a b) : pHuman a = pHuman b := by
  obtain ⟨k, rfl⟩ := h
  induction k with
  | zero => rfl
  | succ n ih => rw [Function.iterate_succ_apply', pHuman_updEntry, ih]

theorem subrel_refl_all (l : List SMsg) : SubRel rewriteRel l l := by
  induction l with
  | nil => exact SubRel.nil
  | cons x rest ih => exact SubRel.keep (rewriteRel_refl x) ih

theorem cleanStateGo_subrel :
    ∀ (input cleaned middle : List SMsg) (users bots : Nat) (base : List SMsg),
      SubRel rewriteRel cleaned base →
      SubRel rewriteRel (cleanStateGo input cleaned middle users bots) (base ++ input) := by
  intro input
  induction input with
  | nil =>
    intro cleaned middle users bots base h
    simpa using h
  | cons x rest ih =>
    intro cleaned middle users bots base h
    have hsplit : base ++ x :: rest = (base ++ [x]) ++ rest := by simp
    rw [hsplit]
    cases x with
    | synthetic =>
      simp only [cleanStateGo]
      exact ih cleaned middle users bots (base ++ [SMsg.synthetic]) h.append_skip
    | real m =>
      cases hk : m.kind with
      | human =>
        simp only [cleanStateGo, hk]
        exact ih _ middle (users + 1) bots _ (h.append_single (rewriteRel_refl _))
      | ai =>
        simp only [cleanStateGo, hk]
        by_cases hfin : (!m.content.isEmpty && m.meta.isSome) = true
        · rw [if_pos hfin]
          by_cases ht : (users == bots + 1) = true
          · rw [if_pos ht]
            apply ih
            apply SubRel.of_sublist (List.filter_sublist _)
            exact SubRel.map_left (fun a b hab => rewriteRel_upd hab)
              (h.append_single (rewriteRel_refl _))
          · rw [if_neg ht]
            exact ih _ middle users (bots + 1) _ (h.append_single (rewriteRel_refl _))
        · rw [if_neg hfin]
          exact ih _ _ users bots _ (h.append_single (rewriteRel_refl _))
      | tool =>
        simp only [cleanStateGo, hk]
        by_cases htr : toolTrigger m.content = true
        · rw [if_pos htr]
          exact ih _ middle users bots _ (h.append_single (rewriteRel_refl _))
        · rw [if_neg htr]
          exact ih _ _ users bots _ (h.append_single (rewriteRel_refl _))

theorem cleanState2Go_subrel :
    ∀ (input cleaned middle : List SMsg) (users bots : Nat) (base : List SMsg),
      SubRel rewriteRel cleaned base →
      SubRel rewriteRel (cleanState2Go input cleaned middle users bots) (base ++ input) := by
  intro input
  induction input with
  | nil =>
    intro cleaned middle users bots base h
    simpa using h
  | cons x rest ih =>
    intro cleaned middle users bots base h
    have hsplit : base ++ x :: rest = (base ++ [x]) ++ rest := by simp
    rw [hsplit]
    cases x with
    | synthetic =>
      simp only [cleanState2Go]
      exact ih cleaned middle users bots (base ++ [SMsg.synthetic]) h.append_skip
    | real m =>
      cases hk : m.kind with
      | human =>
        simp only [cleanState2Go, hk]
        exact ih _ middle (users + 1) bots _ (h.append_single (rewriteRel_refl _))
      | ai =>
        simp only [cleanState2Go, hk]
        by_cases hfin : (!m.content.isEmpty && m.meta.isSome) = true
        · rw [if_pos hfin]
          by_cases ht : (users == bots + 1) = true
          · rw [if_pos ht]
            apply ih
            apply SubRel.of_sublist (List.filter_sublist _)
            exact h.append_single (rewriteRel_refl _)
          · rw [if_neg ht]
            exact ih _ middle users (bots + 1) _ (h.append_single (rewriteRel_refl _))
        · rw [if_neg hfin]
          exact ih _ _ users bots _ (h.append_single (rewriteRel_refl _))
      | tool =>
        simp only [cleanState2Go, hk]
        exact ih _ _ users bots _ (h.append_single (rewriteRel_refl _))

theorem clean_state_subrel (msgs : List SMsg) :
    SubRel rewriteRel (clean_state msgs) msgs := by
  simpa using cleanStateGo_subrel msgs [] [] 0 0 [] SubRel.nil

theorem clean_state2_subrel (msgs : List SMsg) :
    SubRel rewriteRel (clean_state2 msgs) msgs := by
  simpa using cleanState2Go_subrel msgs [] [] 0 0 [] SubRel.nil

theorem compactAfterClassify_subrel (msgs : List SMsg) :
    SubRel rewriteRel (compactAfterClassify msgs) msgs := by
  unfold compactAfterClassify
  split
  · split
    · split
      · exact SubRel.of_sublist (List.drop_sublist _ _) (subrel_refl_all msgs)
      · split
        · exact SubRel.of_sublist (List.drop_sublist _ _) (clean_state2_subrel msgs)
        · exact subrel_refl_all msgs
    · exact subrel_refl_all msgs
  · exact subrel_refl_all msgs

/-- C6: compaction (the classification pass followed by the token-budget
truncation) never reorders: the retained log is an order-preserving
selection of the original entries, each kept entry being the original
message possibly content-rewritten, and the user-message count never
increases. -/
theorem compaction_order_spec (msgs : List SMsg) :
    SubRel rewriteRel (compactPipeline msgs) msgs ∧
    countHuman (compactPipeline msgs) ≤ countHuman msgs := by
  have h : SubRel rewriteRel (compactPipeline msgs) msgs :=
    SubRel.trans_self rewriteRel (fun a b c hab hbc => rewriteRel_trans hab hbc)
      (compactAfterClassify_subrel (clean_state msgs)) (clean_state_subrel msgs)
  exact ⟨h, SubRel.countP_le pHuman (fun a b hab => pHuman_rewriteRel hab) h⟩

/-! ### C8: the assistant re-prompt loop -/

theorem assistantStep_no_terminal (m : Nat → MInvoke) :
    ∀ (fuel i : Nat) (msgs : List SMsg),
      (∀ k, terminalInvoke (m (i + k)) = false) →
      assistantStep m fuel i msgs = none := by
  intro fuel
  induction fuel with
  | zero => intro i msgs h; rfl
  | succ f ih =>
    intro i msgs h
    have h0 := h 0
    simp only [Nat.add_zero] at h0
    cases hm : m i with
    | mraise => rw [hm] at h0; simp [terminalInvoke] at h0
    | mok r =>
      have hempty : resultEmpty r = true := by
        rw [hm] at h0
        simpa [terminalInvoke] using h0
      simp only [assistantStep, hm, hempty, if_pos]
      exact ih (i + 1) _ (fun k => by
        have hk := h (k + 1)
        rwa [show i + (k + 1) = i + 1 + k by omega] at hk)

theorem assistantStep_terminal (m : Nat → MInvoke) :
    ∀ (n i : Nat) (msgs : List SMsg) (fuel : Nat),
      (∀ k, k < n → terminalInvoke (m (i + k)) = false) →
      terminalInvoke (m (i + n)) = true →
      n < fuel →
      ∃ out, assistantStep m fuel i msgs = some out ∧
        (m (i + n) = MInvoke.mraise → out = LoopOut.apology) ∧
        (∀ r, m (i + n) = MInvoke.mok r → ∃ log, out = LoopOut.answered r log ∧
          SMsg.synthetic ∉ log) := by
  intro n
  induction n with
  | zero =>
    intro i msgs fuel hlt hterm hfuel
    obtain ⟨f, rfl⟩ : ∃ f, fuel = f + 1 := ⟨fuel - 1, by omega⟩
    simp only [Nat.add_zero] at hterm ⊢
    cases hm : m i with
    | mraise =>
      refine ⟨LoopOut.apology, ?_, fun _ => rfl, ?_⟩
      · simp [assistantStep, hm]
      · intro r hr
        cases hr
    | mok r =>
      have hne : resultEmpty r = false := by
        rw [hm] at hterm
        simpa [terminalInvoke] using hterm
      refine ⟨LoopOut.answered r ((compactPipeline msgs).filter
        (fun x => !(x == SMsg.synthetic))), ?_, ?_, ?_⟩
      · simp [assistantStep, hm, hne]
      · intro hr
        cases hr
      · intro r2 hr2
        injection hr2 with hr2
        subst hr2
        refine ⟨_, rfl, ?_⟩
        intro hmem
        have hf := List.mem_filter.mp hmem
        simp at hf
  | succ nn ih =>
    intro i msgs fuel hlt hterm hfuel
    obtain ⟨f, rfl⟩ : ∃ f, fuel = f + 1 := ⟨fuel - 1, by omega⟩
    have h0 := hlt 0 (by omega)
    simp only [Nat.add_zero] at h0
    cases hm : m i with
    | mraise => rw [hm] at h0; simp [terminalInvoke] at h0
    | mok r =>
      have hempty : resultEmpty r = true := by
        rw [hm] at h0
        simpa [terminalInvoke] using h0
      have hstep : assistantStep m (f + 1) i msgs =
          assistantStep m f (i + 1) (compactPipeline msgs ++ [SMsg.synthetic]) := by
        simp [assistantStep, hm, hempty]
      have hidx : i + (nn + 1) = i + 1 + nn := by omega
      rw [hidx] at hterm ⊢
      rw [hstep]
      exact ih (i + 1) _ f (fun k hk => by
        have hk2 := hlt (k + 1) (by omega)
        rwa [show i + (k + 1) = i + 1 + k by omega] at hk2) hterm (by omega)

/-- C8: the inner re-prompt loop of `Assistant.__call__` stops exactly at
the first model invocation that raises or returns a result with tool calls
or non-empty textual content: if no invocation is ever terminal the loop
runs forever (diverges at every fuel bound); if the first terminal outcome
is the `n`-th invocation, the loop stops there and returns exactly one
assistant message — the fixed apology on an exception, or the valid result
with every lingering synthetic re-prompt entry removed from the returned
log (the loop itself appends the synthetic user instruction before each
re-invocation). -/
theorem assistant_loop_spec (m : Nat → MInvoke) (msgs : List SMsg) :
    ((∀ k, terminalInvoke (m k) = false) → ∀ fuel, assistantStep m fuel 0 msgs = none) ∧
    (∀ n, (∀ k, k < n → terminalInvoke (m k) = false) → terminalInvoke (m n) = true →
      ∀ fuel, n < fuel →
        ∃ out, assistantStep m fuel 0 msgs = some out ∧
          (m n = MInvoke.mraise → out = LoopOut.apology) ∧
          (∀ r, m n = MInvoke.mok r → ∃ log, out = LoopOut.answered r log ∧
            SMsg.synthetic ∉ log)) := by
  constructor
  · intro h fuel
    exact assistantStep_no_terminal m fuel 0 msgs (fun k => by simpa using h k)
  · intro n hlt hterm fuel hfuel
    have hmain := assistantStep_terminal m n 0 msgs fuel
      (fun k hk => by simpa using hlt k hk) (by simpa using hterm) hfuel
    simpa using hmain

/-- Witness for C8: a model that returns one empty result and then raises
makes the loop retry once and stop with the apology. -/
theorem assistant_loop_spec_witness :
    assistantStep c8stream 2 0 [] = some LoopOut.apology := by
  obtain ⟨out, heq, hra, -⟩ :=
    (assistant_loop_spec c8stream []).2 1 (by decide) (by decide) 2 (by omega)
  rw [heq, hra rfl]

/-! ### C5: idempotence of the tool-message rewrite

The stack below characterizes the five regex scans on the `json.dumps`
output of a combined list, for contents whose captured string fields are
plain printable ASCII. -/

theorem scanGo_skip_append (try1 : Chars → Option (Chars × Chars)) (xs ys : Chars) (k : Nat) :
    scanGo try1 (xs ++ ys) (xs.length + k) = scanGo try1 ys k := by
  induction xs with
  | nil => rw [List.nil_append, List.length_nil, Nat.zero_add]
  | cons c cs ih =>
    have hlen : (c :: cs).length + k = Nat.succ (cs.length + k) := by
      simp [List.length_cons]
      omega
    rw [List.cons_append, hlen]
    show scanGo try1 (cs ++ ys) (cs.length + k) = scanGo try1 ys k
    exact ih

theorem scanGo_cons_none (try1 : Chars → Option (Chars × Chars)) (c : Char) (s : Chars)
    (h : try1 (c :: s) = none) : scanGo try1 (c :: s) 0 = scanGo try1 s 0 := by
  simp only [scanGo, h]

theorem scanGo_cons_some (try1 : Chars → Option (Chars × Chars)) (c : Char) (s cap rest : Chars)
    (h : try1 (c :: s) = some (cap, rest)) :
    scanGo try1 (c :: s) 0 = cap :: scanGo try1 s (s.length - rest.length) := by
  simp only [scanGo, h]

theorem tryKey_none_of_ne_dq (vp : Chars → Option (Chars × Chars)) (key : Chars)
    (c : Char) (s : Chars) (h : (c == dq) = false) : tryKey vp key (c :: s) = none := by
  have h2 : (dq == c) = false := beq_eq_false_iff_ne.mpr (Ne.symm (beq_eq_false_iff_ne.mp h))
  simp [tryKey, startsL, h2]

theorem scanGo_nodq_append (try1 : Chars → Option (Chars × Chars))
    (htry : ∀ c s, (c == dq) = false → try1 (c :: s) = none)
    (xs ys : Chars) (hx : ∀ c ∈ xs, (c == dq) = false) :
    scanGo try1 (xs ++ ys) 0 = scanGo try1 ys 0 := by
  induction xs with
  | nil => rfl
  | cons c cs ih =>
    rw [List.cons_append,
      scanGo_cons_none try1 c (cs ++ ys) (htry c _ (hx c (List.mem_cons_self c cs)))]
    exact ih (fun a ha => hx a (List.mem_cons_of_mem c ha))

theorem takeWhile_append_of (p : Char → Bool) (xs ys : Chars)
    (h1 : ∀ c ∈ xs, p c = true) (h2 : ∀ c, ys.head? = some c → p c = false) :
    List.takeWhile p (xs ++ ys) = xs := by
  induction xs with
  | nil =>
    cases ys with
    | nil => rfl
    | cons y ys2 => simp [List.takeWhile, h2 y rfl]
  | cons c cs ih =>
    simp [List.takeWhile, h1 c (List.mem_cons_self c cs),
      ih (fun a ha => h1 a (List.mem_cons_of_mem c ha))]

theorem dropWhile_append_of (p : Char → Bool) (xs ys : Chars)
    (h1 : ∀ c ∈ xs, p c = true) (h2 : ∀ c, ys.head? = some c → p c = false) :
    List.dropWhile p (xs ++ ys) = ys := by
  induction xs with
  | nil =>
    cases ys with
    | nil => rfl
    | cons y ys2 => simp [List.dropWhile, h2 y rfl]
  | cons c cs ih =>
    simp [List.dropWhile, h1 c (List.mem_cons_self c cs),
      ih (fun a ha => h1 a (List.mem_cons_of_mem c ha))]

theorem startsL_ne_head (a b : Char) (ps cs : Chars) (h : (a == b) = false) :
    startsL (a :: ps) (b :: cs) = false := by
  simp [startsL, h]

/-! #### Character-class facts -/

theorem isDigitC_toNat {c : Char} (h : isDigitC c = true) :
    48 ≤ c.toNat ∧ c.toNat ≤ 57 := by
  simpa [isDigitC, Bool.and_eq_true, decide_eq_true_eq] using h

theorem toNat_ne_imp_ne_beq {c d : Char} (h : c.toNat ≠ d.toNat) : (c == d) = false := by
  apply beq_eq_false_iff_ne.mpr
  intro he
  exact h (by rw [he])

theorem digit_ne_dq {c : Char} (h : isDigitC c = true) : (c == dq) = false := by
  have h2 := isDigitC_toNat h
  have h34 : dq.toNat = 34 := by decide
  exact toNat_ne_imp_ne_beq (by omega)

theorem digit_not_ws {c : Char} (h : isDigitC c = true) : isWs c = false := by
  have h2 := isDigitC_toNat h
  simp only [isWs, Bool.or_eq_false_iff, beq_eq_false_iff_ne, ne_eq]
  omega

theorem digit_not_digit_false {c : Char} (h : isDigitC c = false) : ¬isDigitC c = true := by
  simp [h]

theorem plain_toNat {c : Char} (h : plainChar c = true) :
    32 ≤ c.toNat ∧ c.toNat ≤ 126 ∧ (c == dq) = false ∧ (c == bsl) = false := by
  simp only [plainChar, Bool.and_eq_true, decide_eq_true_eq, Bool.not_eq_true'] at h
  exact ⟨h.1.1.1, h.1.1.2, h.1.2, h.2⟩

theorem plain_ne_dq {c : Char} (h : plainChar c = true) : (c == dq) = false :=
  (plain_toNat h).2.2.1

theorem plain_strBody {c : Char} (h : plainChar c = true) : strBody c = true := by
  obtain ⟨h1, h2, h3, h4⟩ := plain_toNat h
  have hnl10 : nl.toNat = 10 := by decide
  have hnl : (c == nl) = false := toNat_ne_imp_ne_beq (by omega)
  simp [strBody, h3, hnl]

theorem plain_not_ws {c : Char} (h : plainChar c = true) (hws : isWs c = true) :
    c.toNat = 32 := by
  obtain ⟨h1, h2, -, -⟩ := plain_toNat h
  simp only [isWs, Bool.or_eq_true, beq_iff_eq] at hws
  omega

theorem escChar_plain {c : Char} (h : plainChar c = true) : escChar c = [c] := by
  obtain ⟨h1, h2, h3, h4⟩ := plain_toNat h
  have h13 : (c.toNat == 13) = false := by simp; omega
  have h9 : (c.toNat == 9) = false := by simp; omega
  have h8 : (c.toNat == 8) = false := by simp; omega
  have h12 : (c.toNat == 12) = false := by simp; omega
  have hnl10 : nl.toNat = 10 := by decide
  have hnl : (c == nl) = false := toNat_ne_imp_ne_beq (by omega)
  simp only [escChar, h3, h4, hnl, h13, h9, h8, h12, Bool.false_eq_true, if_false]
  rw [if_neg (by omega), if_pos (by omega)]

theorem escape_plain {s : Chars} (h : ∀ c ∈ s, plainChar c = true) : escape s = s := by
  induction s with
  | nil => rfl
  | cons c cs ih =>
    rw [escape, escChar_plain (h c (List.mem_cons_self c cs)),
      ih (fun a ha => h a (List.mem_cons_of_mem c ha))]
    rfl

/-! #### Decimal rendering facts -/

theorem toNat_ofNat_digit (d : Nat) (h : d < 10) : (Char.ofNat (48 + d)).toNat = 48 + d := by
  interval_cases d <;> decide

theorem natDigitsGo_shape :
    ∀ (fuel n : Nat) (acc : Chars), ∃ ds, natDigitsGo fuel n acc = ds ++ acc ∧
      (0 < fuel → ds ≠ []) ∧ ∀ c ∈ ds, 48 ≤ c.toNat ∧ c.toNat ≤ 57 := by
  intro fuel
  induction fuel with
  | zero =>
    intro n acc
    exact ⟨[], rfl, fun h => absurd h (by omega), by simp⟩
  | succ f ih =>
    intro n acc
    by_cases hn : n < 10
    · refine ⟨[Char.ofNat (48 + n % 10)], by simp [natDigitsGo, hn], fun _ => by simp, ?_⟩
      intro c hc
      rcases List.mem_singleton.mp hc with rfl
      rw [toNat_ofNat_digit _ (Nat.mod_lt _ (by omega))]
      omega
    · obtain ⟨ds, hds, hne, hdig⟩ := ih (n / 10) (Char.ofNat (48 + n % 10) :: acc)
      refine ⟨ds ++ [Char.ofNat (48 + n % 10)], ?_, fun _ => by simp, ?_⟩
      · simp only [natDigitsGo, hn, if_false]
        rw [hds]
        simp
      · intro c hc
        rcases List.mem_append.mp hc with hc | hc
        · exact hdig c hc
        · rcases List.mem_singleton.mp hc with rfl
          rw [toNat_ofNat_digit _ (Nat.mod_lt _ (by omega))]
          omega

theorem natDigits_shape (n : Nat) :
    natDigits n ≠ [] ∧ ∀ c ∈ natDigits n, 48 ≤ c.toNat ∧ c.toNat ≤ 57 := by
  obtain ⟨ds, hds, hne, hdig⟩ := natDigitsGo_shape (n + 1) n []
  rw [natDigits, hds, List.append_nil]
  exact ⟨hne (by omega), hdig⟩

theorem natDigits_isDigit {n : Nat} {c : Char} (h : c ∈ natDigits n) : isDigitC c = true := by
  have h2 := (natDigits_shape n).2 c h
  simp [isDigitC, Bool.and_eq_true, decide_eq_true_eq]
  omega

theorem natDigits_ne_dq {n : Nat} {c : Char} (h : c ∈ natDigits n) : (c == dq) = false :=
  digit_ne_dq (natDigits_isDigit h)

theorem natDigitsGo_eq_spec :
    ∀ (fuel n : Nat) (acc : Chars), n < 10 ^ fuel → 0 < fuel →
      natDigitsGo fuel n acc = specDigits n ++ acc := by
  intro fuel
  induction fuel with
  | zero =>
    intro n acc h hf
    omega
  | succ f ih =>
    intro n acc hb hf
    have hstep : natDigitsGo (f + 1) n acc =
        if n < 10 then Char.ofNat (48 + n % 10) :: acc
        else natDigitsGo f (n / 10) (Char.ofNat (48 + n % 10) :: acc) := rfl
    by_cases hn : n < 10
    · rw [hstep, if_pos hn]
      rcases Nat.eq_zero_or_pos n with rfl | hpos
      · simp [specDigits]
      · have hd : Nat.digits 10 n = [n] := by
          rw [Nat.digits_def' (by norm_num : (1 : ℕ) < 10) hpos, Nat.div_eq_of_lt hn]
          simp [Nat.mod_eq_of_lt hn]
        have hne : n ≠ 0 := by omega
        rw [Nat.mod_eq_of_lt hn]
        simp [specDigits, hne, hd]
    · have hf2 : 0 < f := by
        by_contra hz
        have hzf : f = 0 := by omega
        subst hzf
        simp at hb
        omega
      have hdiv : n / 10 < 10 ^ f := by
        rw [Nat.div_lt_iff_lt_mul (by omega : 0 < 10)]
        calc n < 10 ^ (f + 1) := hb
        _ = 10 ^ f * 10 := by rw [pow_succ]
      have hd0 : n / 10 ≠ 0 := by
        have h10 : 1 ≤ n / 10 := (Nat.le_div_iff_mul_le (by omega : 0 < 10)).mpr (by omega)
        omega
      have hn0 : n ≠ 0 := by omega
      rw [hstep, if_neg hn]
      rw [ih (n / 10) _ hdiv hf2]
      have hsplit : specDigits n = specDigits (n / 10) ++ [Char.ofNat (48 + n % 10)] := by
        simp only [specDigits, hn0, hd0, if_false]
        rw [Nat.digits_def' (by norm_num : (1 : ℕ) < 10) (by omega : 0 < n)]
        simp
      rw [hsplit, List.append_assoc]
      rfl

theorem natDigits_eq_spec (n : Nat) : natDigits n = specDigits n := by
  have hlt : n < 10 ^ (n + 1) := by
    calc n < 10 ^ n := Nat.lt_pow_self (by omega) n
    _ ≤ 10 ^ (n + 1) := Nat.pow_le_pow_right (by omega) (by omega)
  rw [natDigits, natDigitsGo_eq_spec (n + 1) n [] hlt (by omega), List.append_nil]

theorem foldl_digits (L : List ℕ) (hL : ∀ d ∈ L, d < 10) :
    ∀ a : ℕ, List.foldl (fun x c => x * 10 + (c.toNat - 48)) a
      ((L.reverse).map (fun d => Char.ofNat (48 + d))) =
      a * 10 ^ L.length + Nat.ofDigits 10 L := by
  induction L with
  | nil =>
    intro a
    simp [Nat.ofDigits]
  | cons d L ih =>
    intro a
    rw [List.reverse_cons, List.map_append, List.foldl_append]
    rw [ih (fun x hx => hL x (List.mem_cons_of_mem d hx)) a]
    simp only [List.map_cons, List.map_nil, List.foldl_cons, List.foldl_nil]
    rw [toNat_ofNat_digit d (hL d (List.mem_cons_self d L))]
    rw [Nat.ofDigits_cons]
    have hsub : 48 + d - 48 = d := by omega
    rw [hsub, List.length_cons, pow_succ]
    ring

theorem parseNat_natDigits (n : Nat) : parseNat (natDigits n) = n := by
  rw [natDigits_eq_spec]
  by_cases hn : n = 0
  · subst hn
    decide
  · unfold specDigits
    rw [if_neg hn]
    have hfold := foldl_digits (Nat.digits 10 n)
      (fun d hd => Nat.digits_lt_base (by norm_num) hd) 0
    rw [parseNat, hfold]
    simp [Nat.ofDigits_digits]

/-! #### Matcher-hit and no-match lemmas -/

theorem beq_symm_false {x y : Char} (h : (x == y) = false) : (y == x) = false :=
  beq_eq_false_iff_ne.mpr (Ne.symm (beq_eq_false_iff_ne.mp h))

theorem tryKey_none_of_startsL_false (vp : Chars → Option (Chars × Chars)) (key text : Chars)
    (h : startsL (dq :: (key ++ [dq, colonC])) text = false) : tryKey vp key text = none := by
  unfold tryKey
  rw [List.cons_append, if_neg (by simp [h])]

theorem scanGo_skip_exact (try1 : Chars → Option (Chars × Chars)) (xs ys : Chars) :
    scanGo try1 (xs ++ ys) xs.length = scanGo try1 ys 0 := by
  have h := scanGo_skip_append try1 xs ys 0
  simpa using h

theorem tryKeyNum_hit (key digits rest : Chars) (hne : digits ≠ [])
    (hd : ∀ c ∈ digits, isDigitC c = true)
    (hr : ∀ c, rest.head? = some c → isDigitC c = false) :
    tryKey vpNum key (dq :: (key ++ [dq, colonC, sp] ++ (digits ++ rest))) =
      some (digits, rest) := by
  have hassoc : dq :: (key ++ [dq, colonC, sp] ++ (digits ++ rest)) =
      (dq :: key ++ [dq, colonC]) ++ (sp :: (digits ++ rest)) := by simp
  have hpre : startsL (dq :: key ++ [dq, colonC])
      (dq :: (key ++ [dq, colonC, sp] ++ (digits ++ rest))) = true := by
    rw [hassoc]
    exact startsL_append_self _ _
  unfold tryKey
  rw [if_pos hpre, hassoc]
  have hlen : key.length + 3 = (dq :: key ++ [dq, colonC]).length := by
    simp only [List.length_cons, List.length_append, List.length_nil]
  rw [hlen, List.drop_left]
  have hsp : isWs sp = true := by decide
  have hdw1 : List.dropWhile isWs (sp :: (digits ++ rest)) =
      List.dropWhile isWs (digits ++ rest) := by
    simp [List.dropWhile, hsp]
  have hdw2 : List.dropWhile isWs (digits ++ rest) = digits ++ rest := by
    cases digits with
    | nil => exact absurd rfl hne
    | cons d ds =>
      simp [List.dropWhile, digit_not_ws (hd d (List.mem_cons_self d ds))]
  have htw := takeWhile_append_of isDigitC digits rest hd hr
  have hdwD := dropWhile_append_of isDigitC digits rest hd hr
  have hie : digits.isEmpty = false := by simpa [List.isEmpty_iff] using hne
  simp [vpNum, hdw1, hdw2, htw, hdwD, hie]

theorem tryKeyStr_hit (key val rest : Chars)
    (hval : ∀ c ∈ val, strBody c = true) :
    tryKey vpStr key (dq :: (key ++ [dq, colonC, sp] ++ (dq :: (val ++ dq :: rest)))) =
      some (val, rest) := by
  have hassoc : dq :: (key ++ [dq, colonC, sp] ++ (dq :: (val ++ dq :: rest))) =
      (dq :: key ++ [dq, colonC]) ++ (sp :: dq :: (val ++ dq :: rest)) := by simp
  have hpre : startsL (dq :: key ++ [dq, colonC])
      (dq :: (key ++ [dq, colonC, sp] ++ (dq :: (val ++ dq :: rest)))) = true := by
    rw [hassoc]
    exact startsL_append_self _ _
  unfold tryKey
  rw [if_pos hpre, hassoc]
  have hlen : key.length + 3 = (dq :: key ++ [dq, colonC]).length := by
    simp only [List.length_cons, List.length_append, List.length_nil]
  rw [hlen, List.drop_left]
  have hsp : isWs sp = true := by decide
  have hdqws : isWs dq = false := by decide
  have hdw1 : List.dropWhile isWs (sp :: dq :: (val ++ dq :: rest)) =
      dq :: (val ++ dq :: rest) := by
    simp [List.dropWhile, hsp, hdqws]
  have hbody : ∀ c, (dq :: rest).head? = some c → strBody c = false := by
    intro c hc
    injection hc with hc
    subst hc
    decide
  have htw := takeWhile_append_of strBody val (dq :: rest) hval hbody
  have hdwD := dropWhile_append_of strBody val (dq :: rest) hval hbody
  simp [vpStr, hdw1, htw, hdwD]

theorem scanGo_hit_num (key digits rest : Chars) (hne : digits ≠ [])
    (hd : ∀ c ∈ digits, isDigitC c = true)
    (hr : ∀ c, rest.head? = some c → isDigitC c = false) :
    scanGo (tryKey vpNum key) (dq :: (key ++ [dq, colonC, sp] ++ (digits ++ rest))) 0 =
      digits :: scanGo (tryKey vpNum key) rest 0 := by
  rw [scanGo_cons_some _ _ _ _ _ (tryKeyNum_hit key digits rest hne hd hr)]
  have hsplit : key ++ [dq, colonC, sp] ++ (digits ++ rest) =
      (key ++ [dq, colonC, sp] ++ digits) ++ rest := by simp
  rw [hsplit]
  have hlen : ((key ++ [dq, colonC, sp] ++ digits) ++ rest).length - rest.length =
      (key ++ [dq, colonC, sp] ++ digits).length := by
    simp only [List.length_append, List.length_cons, List.length_nil]
    omega
  rw [hlen, scanGo_skip_exact]

theorem scanGo_hit_str (key val rest : Chars)
    (hval : ∀ c ∈ val, strBody c = true) :
    scanGo (tryKey vpStr key) (dq :: (key ++ [dq, colonC, sp] ++ (dq :: (val ++ dq :: rest)))) 0 =
      val :: scanGo (tryKey vpStr key) rest 0 := by
  rw [scanGo_cons_some _ _ _ _ _ (tryKeyStr_hit key val rest hval)]
  have hsplit : key ++ [dq, colonC, sp] ++ (dq :: (val ++ dq :: rest)) =
      (key ++ [dq, colonC, sp] ++ (dq :: val ++ [dq])) ++ rest := by simp
  rw [hsplit]
  have hlen : ((key ++ [dq, colonC, sp] ++ (dq :: val ++ [dq])) ++ rest).length - rest.length =
      (key ++ [dq, colonC, sp] ++ (dq :: val ++ [dq])).length := by
    simp only [List.length_append, List.length_cons, List.length_nil]
    omega
  rw [hlen, scanGo_skip_exact]

theorem no_match_over_string (k val rest : Chars)
    (hk : ∀ c ∈ k, (c == dq) = false)
    (hval : ∀ c ∈ val, (c == dq) = false)
    (hrest : ∀ c, rest.head? = some c → (c == colonC) = false) :
    startsL (k ++ [dq, colonC]) (val ++ dq :: rest) = false := by
  induction k generalizing val with
  | nil =>
    cases val with
    | nil =>
      cases rest with
      | nil => simp [startsL]
      | cons r rs =>
        have hr := beq_symm_false (hrest r rfl)
        simp [startsL, hr]
    | cons v vs =>
      have hv := beq_symm_false (hval v (List.mem_cons_self v vs))
      simp [startsL, hv]
  | cons a as ih =>
    cases val with
    | nil =>
      have ha := hk a (List.mem_cons_self a as)
      simp [startsL, ha]
    | cons v vs =>
      by_cases hav : (a == v) = true
      · simp only [List.cons_append, startsL, hav, Bool.true_and]
        exact ih vs (fun c hc => hk c (List.mem_cons_of_mem a hc))
          (fun c hc => hval c (List.mem_cons_of_mem v hc))
      · simp only [List.cons_append, startsL, Bool.and_eq_false_iff]
        left
        simpa using hav

/-! #### Scanning one serialized entry -/

theorem goodKey_facts {k : Chars} (h : goodKey k = true) :
    k ≠ [] ∧ ∀ c ∈ k, (c == dq) = false ∧ (c == colonC) = false ∧
      (c == commaC) = false ∧ (c == rbraceC) = false := by
  simp only [goodKey, Bool.and_eq_true, List.all_eq_true, Bool.not_eq_true'] at h
  refine ⟨by simpa [List.isEmpty_iff] using h.1, ?_⟩
  intro c hc
  obtain ⟨⟨⟨h1, h2⟩, h3⟩, h4⟩ := h.2 c hc
  exact ⟨h1, h2, h3, h4⟩

theorem scanGo_skip_entry (vp : Chars → Option (Chars × Chars)) (k : Chars) (e : Entry)
    (rest : Chars)
    (hk : goodKey k = true)
    (hek : goodKey e.key = true)
    (hdiff : keysDiffer k e.key = true)
    (hplain : ∀ s, e.val = EVal.str s → ∀ c ∈ s, plainChar c = true)
    (hrest : rest.head? = some commaC ∨ rest.head? = some rbraceC) :
    scanGo (tryKey vp k) (entryText e ++ rest) 0 = scanGo (tryKey vp k) rest 0 := by
  obtain ⟨hkne, hkch⟩ := goodKey_facts hk
  obtain ⟨hekne, hekch⟩ := goodKey_facts hek
  obtain ⟨a, as, rfl⟩ : ∃ a as, k = a :: as := by
    cases k with
    | nil => exact absurd rfl hkne
    | cons a as => exact ⟨a, as, rfl⟩
  obtain ⟨b, bs, hbk⟩ : ∃ b bs, e.key = b :: bs := by
    cases hek2 : e.key with
    | nil => exact absurd hek2 hekne
    | cons b bs => exact ⟨b, bs, rfl⟩
  have hab : (a == b) = false := by
    have := hdiff
    rw [hbk] at this
    simpa [keysDiffer] using this
  have htryn : ∀ c s, (c == dq) = false → tryKey vp (a :: as) (c :: s) = none :=
    fun c s hcs => tryKey_none_of_ne_dq vp (a :: as) c s hcs
  have halign : entryText e ++ rest =
      dq :: (e.key ++ ([dq, colonC, sp] ++ (valText e.val ++ rest))) := by
    simp [entryText]
  rw [halign]
  rw [scanGo_cons_none _ _ _ (tryKey_none_of_startsL_false vp _ _ (by
    rw [hbk]
    show startsL ((a :: as) ++ [dq, colonC]) (b :: (bs ++ ([dq, colonC, sp] ++ (valText e.val ++ rest)))) = false
    rw [List.cons_append]
    exact startsL_ne_head a b _ _ hab))]
  rw [scanGo_nodq_append _ htryn e.key _ (fun c hc => (hekch c hc).1)]
  rw [show ([dq, colonC, sp] : Chars) ++ (valText e.val ++ rest) =
    dq :: (colonC :: sp :: (valText e.val ++ rest)) from rfl]
  rw [scanGo_cons_none _ _ _ (tryKey_none_of_startsL_false vp _ _ (by
    rw [List.cons_append]
    exact startsL_ne_head a colonC _ _ (hkch a (List.mem_cons_self a as)).2.1))]
  rw [show (colonC :: sp :: (valText e.val ++ rest) : Chars) =
    [colonC, sp] ++ (valText e.val ++ rest) from rfl]
  rw [scanGo_nodq_append _ htryn [colonC, sp] _ (by decide)]
  have hrest_ne_colon : ∀ c, rest.head? = some c → (c == colonC) = false := by
    intro c hc
    rcases hrest with h | h <;> rw [h] at hc <;> injection hc with hc <;> subst hc <;> decide
  obtain ⟨r, rs, hr⟩ : ∃ r rs, rest = r :: rs := by
    rcases hrest with h | h <;> (cases rest with
      | nil => cases h
      | cons r rs => exact ⟨r, rs, rfl⟩)
  have hrk : (a == r) = false := by
    have hhd : rest.head? = some r := by rw [hr]; rfl
    rcases hrest with h | h <;> rw [hhd] at h <;> injection h with h <;> subst h
    · exact (hkch a (List.mem_cons_self a as)).2.2.1
    · exact (hkch a (List.mem_cons_self a as)).2.2.2
  cases hv : e.val with
  | num nv =>
    rw [show valText (EVal.num nv) = natDigits nv from rfl]
    rw [scanGo_nodq_append _ htryn (natDigits nv) rest (fun c hc => natDigits_ne_dq hc)]
  | str s0 =>
    have hs0 : ∀ c ∈ s0, plainChar c = true := hplain s0 hv
    have hs0dq : ∀ c ∈ s0, (c == dq) = false := fun c hc => plain_ne_dq (hs0 c hc)
    rw [show valText (EVal.str s0) = dq :: escape s0 ++ [dq] from rfl,
      escape_plain hs0]
    rw [show (dq :: s0 ++ [dq]) ++ rest = dq :: (s0 ++ (dq :: rest)) from by simp]
    rw [scanGo_cons_none _ _ _ (tryKey_none_of_startsL_false vp _ _ (by
      rw [List.cons_append]
      exact no_match_over_string (a :: as) s0 rest
        (fun c hc => (hkch c hc).1) hs0dq hrest_ne_colon))]
    rw [scanGo_nodq_append _ htryn s0 _ hs0dq]
    rw [scanGo_cons_none _ _ _ (tryKey_none_of_startsL_false vp _ _ (by
      rw [List.cons_append, hr]
      exact startsL_ne_head a r _ _ hrk))]

theorem scanGo_hit_entry_num (k : Chars) (nv : Nat) (rest : Chars)
    (hrest : rest.head? = some commaC ∨ rest.head? = some rbraceC) :
    scanGo (tryKey vpNum k) (entryText ⟨k, EVal.num nv⟩ ++ rest) 0 =
      natDigits nv :: scanGo (tryKey vpNum k) rest 0 := by
  have halign : entryText ⟨k, EVal.num nv⟩ ++ rest =
      dq :: (k ++ [dq, colonC, sp] ++ (natDigits nv ++ rest)) := by
    simp [entryText, valText]
  rw [halign]
  exact scanGo_hit_num k (natDigits nv) rest (natDigits_shape nv).1
    (fun c hc => natDigits_isDigit hc)
    (fun c hc => by
      rcases hrest with h | h <;> rw [h] at hc <;> injection hc with hc <;> subst hc <;> decide)

theorem scanGo_hit_entry_str (k s0 rest : Chars)
    (hplain : ∀ c ∈ s0, plainChar c = true) :
    scanGo (tryKey vpStr k) (entryText ⟨k, EVal.str s0⟩ ++ rest) 0 =
      s0 :: scanGo (tryKey vpStr k) rest 0 := by
  have halign : entryText ⟨k, EVal.str s0⟩ ++ rest =
      dq :: (k ++ [dq, colonC, sp] ++ (dq :: (s0 ++ dq :: rest))) := by
    simp [entryText, valText, escape_plain hplain]
  rw [halign]
  exact scanGo_hit_str k s0 rest (fun c hc => plain_strBody (hplain c hc))

/-! #### Scanning a serialized dict and the full dump -/

theorem scanGo_entriesText (vp : Chars → Option (Chars × Chars)) (k : Chars) :
    ∀ (es : List Entry) (rest : Chars),
      (∀ e ∈ es, ∀ tail : Chars,
        tail.head? = some commaC ∨ tail.head? = some rbraceC →
        scanGo (tryKey vp k) (entryText e ++ tail) 0 =
          entryCapture k e ++ scanGo (tryKey vp k) tail 0) →
      rest.head? = some rbraceC →
      scanGo (tryKey vp k) (entriesText es ++ rest) 0 =
        capturesList k es ++ scanGo (tryKey vp k) rest 0 := by
  intro es
  induction es with
  | nil =>
    intro rest hstep hrest
    simp [entriesText, capturesList]
  | cons e es ih =>
    intro rest hstep hrest
    cases es with
    | nil =>
      rw [show entriesText [e] = entryText e from rfl]
      rw [hstep e (List.mem_cons_self e []) rest (Or.inr hrest)]
      simp [capturesList]
    | cons e2 es2 =>
      rw [show entriesText (e :: e2 :: es2) =
        entryText e ++ ([commaC, sp] ++ entriesText (e2 :: es2)) from by
          simp [entriesText]]
      rw [List.append_assoc]
      rw [show ([commaC, sp] ++ entriesText (e2 :: es2)) ++ rest =
        [commaC, sp] ++ (entriesText (e2 :: es2) ++ rest) from by simp]
      rw [hstep e (List.mem_cons_self e _)
        ([commaC, sp] ++ (entriesText (e2 :: es2) ++ rest)) (Or.inl rfl)]
      rw [scanGo_nodq_append _ (fun c s hcs => tryKey_none_of_ne_dq vp k c s hcs)
        [commaC, sp] _ (by decide)]
      rw [ih rest (fun e2 he2 => hstep e2 (List.mem_cons_of_mem e he2)) hrest]
      simp [capturesList]

theorem scanGo_dumpDict (vp : Chars → Option (Chars × Chars)) (k : Chars) (d : BookingDict)
    (rest : Chars)
    (hstep : ∀ e ∈ dictEntries d, ∀ tail : Chars,
      tail.head? = some commaC ∨ tail.head? = some rbraceC →
      scanGo (tryKey vp k) (entryText e ++ tail) 0 =
        entryCapture k e ++ scanGo (tryKey vp k) tail 0) :
    scanGo (tryKey vp k) (dumpDict d ++ rest) 0 =
      dictCaptures k d ++ scanGo (tryKey vp k) rest 0 := by
  rw [show dumpDict d ++ rest =
    lbraceC :: (entriesText (dictEntries d) ++ (rbraceC :: rest)) from by simp [dumpDict]]
  rw [scanGo_cons_none _ _ _ (tryKey_none_of_ne_dq vp k lbraceC _ (by decide))]
  rw [scanGo_entriesText vp k (dictEntries d) (rbraceC :: rest) hstep rfl]
  rw [scanGo_cons_none _ _ _ (tryKey_none_of_ne_dq vp k rbraceC _ (by decide))]
  rfl

theorem scanGo_dumpInner (vp : Chars → Option (Chars × Chars)) (k : Chars) :
    ∀ (l : List BookingDict) (rest : Chars),
      (∀ d ∈ l, ∀ e ∈ dictEntries d, ∀ tail : Chars,
        tail.head? = some commaC ∨ tail.head? = some rbraceC →
        scanGo (tryKey vp k) (entryText e ++ tail) 0 =
          entryCapture k e ++ scanGo (tryKey vp k) tail 0) →
      scanGo (tryKey vp k) (dumpInner l ++ rest) 0 =
        (l.foldr (fun d acc => dictCaptures k d ++ acc) []) ++ scanGo (tryKey vp k) rest 0 := by
  intro l
  induction l with
  | nil =>
    intro rest hsteps
    simp [dumpInner]
  | cons d l ih =>
    intro rest hsteps
    cases l with
    | nil =>
      rw [show dumpInner [d] = dumpDict d from rfl]
      rw [scanGo_dumpDict vp k d rest (hsteps d (List.mem_cons_self d []))]
      simp
    | cons d2 l2 =>
      rw [show dumpInner (d :: d2 :: l2) =
        dumpDict d ++ ([commaC, sp] ++ dumpInner (d2 :: l2)) from by simp [dumpInner]]
      rw [List.append_assoc]
      rw [show ([commaC, sp] ++ dumpInner (d2 :: l2)) ++ rest =
        [commaC, sp] ++ (dumpInner (d2 :: l2) ++ rest) from by simp]
      rw [scanGo_dumpDict vp k d _ (hsteps d (List.mem_cons_self d _))]
      rw [scanGo_nodq_append _ (fun c s hcs => tryKey_none_of_ne_dq vp k c s hcs)
        [commaC, sp] _ (by decide)]
      rw [ih rest (fun d2 hd2 => hsteps d2 (List.mem_cons_of_mem d hd2))]
      simp

theorem findall_dumpList (vp : Chars → Option (Chars × Chars)) (k : Chars)
    (l : List BookingDict)
    (hsteps : ∀ d ∈ l, ∀ e ∈ dictEntries d, ∀ tail : Chars,
      tail.head? = some commaC ∨ tail.head? = some rbraceC →
      scanGo (tryKey vp k) (entryText e ++ tail) 0 =
        entryCapture k e ++ scanGo (tryKey vp k) tail 0) :
    findall (tryKey vp k) (dumpList l) =
      l.foldr (fun d acc => dictCaptures k d ++ acc) [] := by
  unfold findall
  rw [show dumpList l = lbrackC :: (dumpInner l ++ [rbrackC]) from by simp [dumpList]]
  rw [scanGo_cons_none _ _ _ (tryKey_none_of_ne_dq vp k lbrackC _ (by decide))]
  rw [scanGo_dumpInner vp k l [rbrackC] hsteps]
  rw [scanGo_cons_none _ _ _ (tryKey_none_of_ne_dq vp k rbrackC _ (by decide))]
  rw [show scanGo (tryKey vp k) [] 0 = [] from rfl]
  simp

/-! #### The five key scans over the dump -/

theorem mem_optEntry {α : Type} (o : Option α) (f : α → Entry) (e : Entry)
    (h : e ∈ optEntry o f) : ∃ a, o = some a ∧ e = f a := by
  cases o with
  | none => simp [optEntry] at h
  | some a =>
    simp [optEntry] at h
    exact ⟨a, rfl, h⟩

theorem mem_dictEntries (d : BookingDict) (e : Entry) (h : e ∈ dictEntries d) :
    (∃ n, d.booking_id = some n ∧ e = ⟨bookingKey, EVal.num n⟩) ∨
    (∃ n, d.car_id = some n ∧ e = ⟨carKey, EVal.num n⟩) ∨
    (∃ s, d.name = some s ∧ e = ⟨nameKey, EVal.str s⟩) ∨
    (∃ s, d.start_date = some s ∧ e = ⟨startKey, EVal.str s⟩) ∨
    (∃ s, d.end_date = some s ∧ e = ⟨endKey, EVal.str s⟩) := by
  simp only [dictEntries, List.mem_append] at h
  rcases h with ((((h | h) | h) | h) | h)
  · exact Or.inl (mem_optEntry _ _ _ h)
  · exact Or.inr (Or.inl (mem_optEntry _ _ _ h))
  · exact Or.inr (Or.inr (Or.inl (mem_optEntry _ _ _ h)))
  · exact Or.inr (Or.inr (Or.inr (Or.inl (mem_optEntry _ _ _ h))))
  · exact Or.inr (Or.inr (Or.inr (Or.inr (mem_optEntry _ _ _ h))))

theorem entryCapture_hit_num (k : Chars) (n : Nat) :
    entryCapture k ⟨k, EVal.num n⟩ = [natDigits n] := by
  simp [entryCapture]

theorem entryCapture_hit_str (k : Chars) (s : Chars) :
    entryCapture k ⟨k, EVal.str s⟩ = [s] := by
  simp [entryCapture]

theorem entryCapture_miss (k k2 : Chars) (v : EVal) (h : ¬k2 = k) :
    entryCapture k ⟨k2, v⟩ = [] := by
  simp [entryCapture, h]

theorem dict_step_booking (d : BookingDict) (hp : dictPlain d) :
    ∀ e ∈ dictEntries d, ∀ tail : Chars,
      tail.head? = some commaC ∨ tail.head? = some rbraceC →
      scanGo (tryKey vpNum bookingKey) (entryText e ++ tail) 0 =
        entryCapture bookingKey e ++ scanGo (tryKey vpNum bookingKey) tail 0 := by
  intro e he tail htail
  rcases mem_dictEntries d e he with ⟨n, -, rfl⟩ | ⟨n, -, rfl⟩ | ⟨s, hs, rfl⟩ |
    ⟨s, hs, rfl⟩ | ⟨s, hs, rfl⟩
  · rw [scanGo_hit_entry_num bookingKey n tail htail]
    rw [entryCapture_hit_num bookingKey n]
    rfl
  · rw [scanGo_skip_entry vpNum bookingKey ⟨carKey, EVal.num n⟩ tail (by decide)
      (show goodKey carKey = true by decide)
      (show keysDiffer bookingKey carKey = true by decide) (fun s0 hs0 => absurd hs0 (by simp)) htail]
    rw [entryCapture_miss bookingKey carKey (EVal.num n) (by decide)]
    rfl
  · rw [scanGo_skip_entry vpNum bookingKey ⟨nameKey, EVal.str s⟩ tail (by decide)
      (show goodKey nameKey = true by decide)
      (show keysDiffer bookingKey nameKey = true by decide) (fun s0 hs0 => by cases hs0; exact hp.1 s hs) htail]
    rw [entryCapture_miss bookingKey nameKey (EVal.str s) (by decide)]
    rfl
  · rw [scanGo_skip_entry vpNum bookingKey ⟨startKey, EVal.str s⟩ tail (by decide)
      (show goodKey startKey = true by decide)
      (show keysDiffer bookingKey startKey = true by decide) (fun s0 hs0 => by cases hs0; exact hp.2.1 s hs) htail]
    rw [entryCapture_miss bookingKey startKey (EVal.str s) (by decide)]
    rfl
  · rw [scanGo_skip_entry vpNum bookingKey ⟨endKey, EVal.str s⟩ tail (by decide)
      (show goodKey endKey = true by decide)
      (show keysDiffer bookingKey endKey = true by decide) (fun s0 hs0 => by cases hs0; exact hp.2.2 s hs) htail]
    rw [entryCapture_miss bookingKey endKey (EVal.str s) (by decide)]
    rfl

theorem dict_step_car (d : BookingDict) (hp : dictPlain d) :
    ∀ e ∈ dictEntries d, ∀ tail : Chars,
      tail.head? = some commaC ∨ tail.head? = some rbraceC →
      scanGo (tryKey vpNum carKey) (entryText e ++ tail) 0 =
        entryCapture carKey e ++ scanGo (tryKey vpNum carKey) tail 0 := by
  intro e he tail htail
  rcases mem_dictEntries d e he with ⟨n, -, rfl⟩ | ⟨n, -, rfl⟩ | ⟨s, hs, rfl⟩ |
    ⟨s, hs, rfl⟩ | ⟨s, hs, rfl⟩
  · rw [scanGo_skip_entry vpNum carKey ⟨bookingKey, EVal.num n⟩ tail (by decide)
      (show goodKey bookingKey = true by decide)
      (show keysDiffer carKey bookingKey = true by decide) (fun s0 hs0 => absurd hs0 (by simp)) htail]
    rw [entryCapture_miss carKey bookingKey (EVal.num n) (by decide)]
    rfl
  · rw [scanGo_hit_entry_num carKey n tail htail]
    rw [entryCapture_hit_num carKey n]
    rfl
  · rw [scanGo_skip_entry vpNum carKey ⟨nameKey, EVal.str s⟩ tail (by decide)
      (show goodKey nameKey = true by decide)
      (show keysDiffer carKey nameKey = true by decide) (fun s0 hs0 => by cases hs0; exact hp.1 s hs) htail]
    rw [entryCapture_miss carKey nameKey (EVal.str s) (by decide)]
    rfl
  · rw [scanGo_skip_entry vpNum carKey ⟨startKey, EVal.str s⟩ tail (by decide)
      (show goodKey startKey = true by decide)
      (show keysDiffer carKey startKey = true by decide) (fun s0 hs0 => by cases hs0; exact hp.2.1 s hs) htail]
    rw [entryCapture_miss carKey startKey (EVal.str s) (by decide)]
    rfl
  · rw [scanGo_skip_entry vpNum carKey ⟨endKey, EVal.str s⟩ tail (by decide)
      (show goodKey endKey = true by decide)
      (show keysDiffer carKey endKey = true by decide) (fun s0 hs0 => by cases hs0; exact hp.2.2 s hs) htail]
    rw [entryCapture_miss carKey endKey (EVal.str s) (by decide)]
    rfl

theorem dict_step_name (d : BookingDict) (hp : dictPlain d) :
    ∀ e ∈ dictEntries d, ∀ tail : Chars,
      tail.head? = some commaC ∨ tail.head? = some rbraceC →
      scanGo (tryKey vpStr nameKey) (entryText e ++ tail) 0 =
        entryCapture nameKey e ++ scanGo (tryKey vpStr nameKey) tail 0 := by
  intro e he tail htail
  rcases mem_dictEntries d e he with ⟨n, -, rfl⟩ | ⟨n, -, rfl⟩ | ⟨s, hs, rfl⟩ |
    ⟨s, hs, rfl⟩ | ⟨s, hs, rfl⟩
  · rw [scanGo_skip_entry vpStr nameKey ⟨bookingKey, EVal.num n⟩ tail (by decide)
      (show goodKey bookingKey = true by decide)
      (show keysDiffer nameKey bookingKey = true by decide) (fun s0 hs0 => absurd hs0 (by simp)) htail]
    rw [entryCapture_miss nameKey bookingKey (EVal.num n) (by decide)]
    rfl
  · rw [scanGo_skip_entry vpStr nameKey ⟨carKey, EVal.num n⟩ tail (by decide)
      (show goodKey carKey = true by decide)
      (show keysDiffer nameKey carKey = true by decide) (fun s0 hs0 => absurd hs0 (by simp)) htail]
    rw [entryCapture_miss nameKey carKey (EVal.num n) (by decide)]
    rfl
  · rw [scanGo_hit_entry_str nameKey s tail (hp.1 s hs)]
    rw [entryCapture_hit_str nameKey s]
    rfl
  · rw [scanGo_skip_entry vpStr nameKey ⟨startKey, EVal.str s⟩ tail (by decide)
      (show goodKey startKey = true by decide)
      (show keysDiffer nameKey startKey = true by decide) (fun s0 hs0 => by cases hs0; exact hp.2.1 s hs) htail]
    rw [entryCapture_miss nameKey startKey (EVal.str s) (by decide)]
    rfl
  · rw [scanGo_skip_entry vpStr nameKey ⟨endKey, EVal.str s⟩ tail (by decide)
      (show goodKey endKey = true by decide)
      (show keysDiffer nameKey endKey = true by decide) (fun s0 hs0 => by cases hs0; exact hp.2.2 s hs) htail]
    rw [entryCapture_miss nameKey endKey (EVal.str s) (by decide)]
    rfl

theorem dict_step_start (d : BookingDict) (hp : dictPlain d) :
    ∀ e ∈ dictEntries d, ∀ tail : Chars,
      tail.head? = some commaC ∨ tail.head? = some rbraceC →
      scanGo (tryKey vpStr startKey) (entryText e ++ tail) 0 =
        entryCapture startKey e ++ scanGo (tryKey vpStr startKey) tail 0 := by
  intro e he tail htail
  rcases mem_dictEntries d e he with ⟨n, -, rfl⟩ | ⟨n, -, rfl⟩ | ⟨s, hs, rfl⟩ |
    ⟨s, hs, rfl⟩ | ⟨s, hs, rfl⟩
  · rw [scanGo_skip_entry vpStr startKey ⟨bookingKey, EVal.num n⟩ tail (by decide)
      (show goodKey bookingKey = true by decide)
      (show keysDiffer startKey bookingKey = true by decide) (fun s0 hs0 => absurd hs0 (by simp)) htail]
    rw [entryCapture_miss startKey bookingKey (EVal.num n) (by decide)]
    rfl
  · rw [scanGo_skip_entry vpStr startKey ⟨carKey, EVal.num n⟩ tail (by decide)
      (show goodKey carKey = true by decide)
      (show keysDiffer startKey carKey = true by decide) (fun s0 hs0 => absurd hs0 (by simp)) htail]
    rw [entryCapture_miss startKey carKey (EVal.num n) (by decide)]
    rfl
  · rw [scanGo_skip_entry vpStr startKey ⟨nameKey, EVal.str s⟩ tail (by decide)
      (show goodKey nameKey = true by decide)
      (show keysDiffer startKey nameKey = true by decide) (fun s0 hs0 => by cases hs0; exact hp.1 s hs) htail]
    rw [entryCapture_miss startKey nameKey (EVal.str s) (by decide)]
    rfl
  · rw [scanGo_hit_entry_str startKey s tail (hp.2.1 s hs)]
    rw [entryCapture_hit_str startKey s]
    rfl
  · rw [scanGo_skip_entry vpStr startKey ⟨endKey, EVal.str s⟩ tail (by decide)
      (show goodKey endKey = true by decide)
      (show keysDiffer startKey endKey = true by decide) (fun s0 hs0 => by cases hs0; exact hp.2.2 s hs) htail]
    rw [entryCapture_miss startKey endKey (EVal.str s) (by decide)]
    rfl

theorem dict_step_end (d : BookingDict) (hp : dictPlain d) :
    ∀ e ∈ dictEntries d, ∀ tail : Chars,
      tail.head? = some commaC ∨ tail.head? = some rbraceC →
      scanGo (tryKey vpStr endKey) (entryText e ++ tail) 0 =
        entryCapture endKey e ++ scanGo (tryKey vpStr endKey) tail 0 := by
  intro e he tail htail
  rcases mem_dictEntries d e he with ⟨n, -, rfl⟩ | ⟨n, -, rfl⟩ | ⟨s, hs, rfl⟩ |
    ⟨s, hs, rfl⟩ | ⟨s, hs, rfl⟩
  · rw [scanGo_skip_entry vpStr endKey ⟨bookingKey, EVal.num n⟩ tail (by decide)
      (show goodKey bookingKey = true by decide)
      (show keysDiffer endKey bookingKey = true by decide) (fun s0 hs0 => absurd hs0 (by simp)) htail]
    rw [entryCapture_miss endKey bookingKey (EVal.num n) (by decide)]
    rfl
  · rw [scanGo_skip_entry vpStr endKey ⟨carKey, EVal.num n⟩ tail (by decide)
      (show goodKey carKey = true by decide)
      (show keysDiffer endKey carKey = true by decide) (fun s0 hs0 => absurd hs0 (by simp)) htail]
    rw [entryCapture_miss endKey carKey (EVal.num n) (by decide)]
    rfl
  · rw [scanGo_skip_entry vpStr endKey ⟨nameKey, EVal.str s⟩ tail (by decide)
      (show goodKey nameKey = true by decide)
      (show keysDiffer endKey nameKey = true by decide) (fun s0 hs0 => by cases hs0; exact hp.1 s hs) htail]
    rw [entryCapture_miss endKey nameKey (EVal.str s) (by decide)]
    rfl
  · rw [scanGo_skip_entry vpStr endKey ⟨startKey, EVal.str s⟩ tail (by decide)
      (show goodKey startKey = true by decide)
      (show keysDiffer endKey startKey = true by decide) (fun s0 hs0 => by cases hs0; exact hp.2.1 s hs) htail]
    rw [entryCapture_miss endKey startKey (EVal.str s) (by decide)]
    rfl
  · rw [scanGo_hit_entry_str endKey s tail (hp.2.2 s hs)]
    rw [entryCapture_hit_str endKey s]
    rfl

/-! #### Evaluating the captures of one dict, key by key -/

theorem capturesList_append (k : Chars) (es1 es2 : List Entry) :
    capturesList k (es1 ++ es2) = capturesList k es1 ++ capturesList k es2 := by
  induction es1 with
  | nil => rfl
  | cons e es ih =>
    simp only [List.cons_append]
    show entryCapture k e ++ capturesList k (es ++ es2) =
      (entryCapture k e ++ capturesList k es) ++ capturesList k es2
    rw [ih, List.append_assoc]

theorem capturesList_optEntry {α : Type} (k : Chars) (o : Option α) (f : α → Entry) :
    capturesList k (optEntry o f) =
      (match o with | some a => entryCapture k (f a) | none => []) := by
  cases o with
  | none => rfl
  | some a => simp [capturesList, optEntry]

theorem dictCaptures_booking (d : BookingDict) :
    dictCaptures bookingKey d =
      (match d.booking_id with | some n => [natDigits n] | none => []) := by
  unfold dictCaptures dictEntries
  rw [capturesList_append, capturesList_append, capturesList_append, capturesList_append]
  rw [capturesList_optEntry, capturesList_optEntry, capturesList_optEntry,
    capturesList_optEntry, capturesList_optEntry]
  rcases d with ⟨ob, oc, onm, os, oe⟩
  have hb : ∀ n, entryCapture bookingKey ⟨bookingKey, EVal.num n⟩ = [natDigits n] :=
    fun n => entryCapture_hit_num bookingKey n
  have hc : ∀ n, entryCapture bookingKey ⟨carKey, EVal.num n⟩ = [] :=
    fun n => entryCapture_miss bookingKey carKey (EVal.num n) (by decide)
  have hn : ∀ s, entryCapture bookingKey ⟨nameKey, EVal.str s⟩ = [] :=
    fun s => entryCapture_miss bookingKey nameKey (EVal.str s) (by decide)
  have hs : ∀ s, entryCapture bookingKey ⟨startKey, EVal.str s⟩ = [] :=
    fun s => entryCapture_miss bookingKey startKey (EVal.str s) (by decide)
  have he : ∀ s, entryCapture bookingKey ⟨endKey, EVal.str s⟩ = [] :=
    fun s => entryCapture_miss bookingKey endKey (EVal.str s) (by decide)
  cases ob <;> cases oc <;> cases onm <;> cases os <;> cases oe <;>
    simp [hb, hc, hn, hs, he]

theorem dictCaptures_car (d : BookingDict) :
    dictCaptures carKey d =
      (match d.car_id with | some n => [natDigits n] | none => []) := by
  unfold dictCaptures dictEntries
  rw [capturesList_append, capturesList_append, capturesList_append, capturesList_append]
  rw [capturesList_optEntry, capturesList_optEntry, capturesList_optEntry,
    capturesList_optEntry, capturesList_optEntry]
  rcases d with ⟨ob, oc, onm, os, oe⟩
  have hb : ∀ n, entryCapture carKey ⟨bookingKey, EVal.num n⟩ = [] :=
    fun n => entryCapture_miss carKey bookingKey (EVal.num n) (by decide)
  have hc : ∀ n, entryCapture carKey ⟨carKey, EVal.num n⟩ = [natDigits n] :=
    fun n => entryCapture_hit_num carKey n
  have hn : ∀ s, entryCapture carKey ⟨nameKey, EVal.str s⟩ = [] :=
    fun s => entryCapture_miss carKey nameKey (EVal.str s) (by decide)
  have hs : ∀ s, entryCapture carKey ⟨startKey, EVal.str s⟩ = [] :=
    fun s => entryCapture_miss carKey startKey (EVal.str s) (by decide)
  have he : ∀ s, entryCapture carKey ⟨endKey, EVal.str s⟩ = [] :=
    fun s => entryCapture_miss carKey endKey (EVal.str s) (by decide)
  cases ob <;> cases oc <;> cases onm <;> cases os <;> cases oe <;>
    simp [hb, hc, hn, hs, he]

theorem dictCaptures_name (d : BookingDict) :
    dictCaptures nameKey d =
      (match d.name with | some s => [s] | none => []) := by
  unfold dictCaptures dictEntries
  rw [capturesList_append, capturesList_append, capturesList_append, capturesList_append]
  rw [capturesList_optEntry, capturesList_optEntry, capturesList_optEntry,
    capturesList_optEntry, capturesList_optEntry]
  rcases d with ⟨ob, oc, onm, os, oe⟩
  have hb : ∀ n, entryCapture nameKey ⟨bookingKey, EVal.num n⟩ = [] :=
    fun n => entryCapture_miss nameKey bookingKey (EVal.num n) (by decide)
  have hc : ∀ n, entryCapture nameKey ⟨carKey, EVal.num n⟩ = [] :=
    fun n => entryCapture_miss nameKey carKey (EVal.num n) (by decide)
  have hn : ∀ s, entryCapture nameKey ⟨nameKey, EVal.str s⟩ = [s] :=
    fun s => entryCapture_hit_str nameKey s
  have hs : ∀ s, entryCapture nameKey ⟨startKey, EVal.str s⟩ = [] :=
    fun s => entryCapture_miss nameKey startKey (EVal.str s) (by decide)
  have he : ∀ s, entryCapture nameKey ⟨endKey, EVal.str s⟩ = [] :=
    fun s => entryCapture_miss nameKey endKey (EVal.str s) (by decide)
  cases ob <;> cases oc <;> cases onm <;> cases os <;> cases oe <;>
    simp [hb, hc, hn, hs, he]

theorem dictCaptures_start (d : BookingDict) :
    dictCaptures startKey d =
      (match d.start_date with | some s => [s] | none => []) := by
  unfold dictCaptures dictEntries
  rw [capturesList_append, capturesList_append, capturesList_append, capturesList_append]
  rw [capturesList_optEntry, capturesList_optEntry, capturesList_optEntry,
    capturesList_optEntry, capturesList_optEntry]
  rcases d with ⟨ob, oc, onm, os, oe⟩
  have hb : ∀ n, entryCapture startKey ⟨bookingKey, EVal.num n⟩ = [] :=
    fun n => entryCapture_miss startKey bookingKey (EVal.num n) (by decide)
  have hc : ∀ n, entryCapture startKey ⟨carKey, EVal.num n⟩ = [] :=
    fun n => entryCapture_miss startKey carKey (EVal.num n) (by decide)
  have hn : ∀ s, entryCapture startKey ⟨nameKey, EVal.str s⟩ = [] :=
    fun s => entryCapture_miss startKey nameKey (EVal.str s) (by decide)
  have hs : ∀ s, entryCapture startKey ⟨startKey, EVal.str s⟩ = [s] :=
    fun s => entryCapture_hit_str startKey s
  have he : ∀ s, entryCapture startKey ⟨endKey, EVal.str s⟩ = [] :=
    fun s => entryCapture_miss startKey endKey (EVal.str s) (by decide)
  cases ob <;> cases oc <;> cases onm <;> cases os <;> cases oe <;>
    simp [hb, hc, hn, hs, he]

theorem dictCaptures_end (d : BookingDict) :
    dictCaptures endKey d =
      (match d.end_date with | some s => [s] | none => []) := by
  unfold dictCaptures dictEntries
  rw [capturesList_append, capturesList_append, capturesList_append, capturesList_append]
  rw [capturesList_optEntry, capturesList_optEntry, capturesList_optEntry,
    capturesList_optEntry, capturesList_optEntry]
  rcases d with ⟨ob, oc, onm, os, oe⟩
  have hb : ∀ n, entryCapture endKey ⟨bookingKey, EVal.num n⟩ = [] :=
    fun n => entryCapture_miss endKey bookingKey (EVal.num n) (by decide)
  have hc : ∀ n, entryCapture endKey ⟨carKey, EVal.num n⟩ = [] :=
    fun n => entryCapture_miss endKey carKey (EVal.num n) (by decide)
  have hn : ∀ s, entryCapture endKey ⟨nameKey, EVal.str s⟩ = [] :=
    fun s => entryCapture_miss endKey nameKey (EVal.str s) (by decide)
  have hs : ∀ s, entryCapture endKey ⟨startKey, EVal.str s⟩ = [] :=
    fun s => entryCapture_miss endKey startKey (EVal.str s) (by decide)
  have he : ∀ s, entryCapture endKey ⟨endKey, EVal.str s⟩ = [s] :=
    fun s => entryCapture_hit_str endKey s
  cases ob <;> cases oc <;> cases onm <;> cases os <;> cases oe <;>
    simp [hb, hc, hn, hs, he]

/-! #### Folds over the index range of `combine` -/

theorem foldr_fun_congr {α β : Type} (l : List α) (f g : α → β → β) (init : β)
    (h : ∀ a b, f a b = g a b) : l.foldr f init = l.foldr g init := by
  induction l with
  | nil => rfl
  | cons x xs ih => simp only [List.foldr_cons, h, ih]

theorem foldr_range_get (xs : List Chars) (g : Chars → Chars) :
    ∀ N, xs.length ≤ N →
      (List.range N).foldr (fun i acc =>
        (match xs.get? i with | some v => [g v] | none => []) ++ acc) [] = xs.map g := by
  induction xs with
  | nil =>
    intro N _
    have hnil : ∀ (l : List Nat), l.foldr (fun i acc =>
        (match ([] : List Chars).get? i with | some v => [g v] | none => []) ++ acc) []
        = [] := by
      intro l
      induction l with
      | nil => rfl
      | cons i l ihl =>
        rw [List.foldr_cons, ihl]
        rfl
    exact hnil (List.range N)
  | cons x xs ih =>
    intro N hN
    obtain ⟨M, rfl⟩ : ∃ M, N = M + 1 := ⟨N - 1, by simp at hN; omega⟩
    rw [List.range_succ_eq_map, List.foldr_cons, List.foldr_map]
    have hshift : ∀ (l : List Nat) (init : List Chars), l.foldr (fun i acc =>
        (match (x :: xs).get? (i + 1) with | some v => [g v] | none => []) ++ acc) init =
        l.foldr (fun i acc =>
        (match xs.get? i with | some v => [g v] | none => []) ++ acc) init := by
      intro l init
      induction l with
      | nil => rfl
      | cons i l ihl => simp only [List.foldr_cons, List.get?_cons_succ, ihl]
    rw [hshift]
    rw [ih M (by simp at hN; omega)]
    simp

/-! #### The five regex extractions over a dumped list -/

theorem findBookingIds_dumpList (L : List BookingDict) (hpl : ∀ d ∈ L, dictPlain d) :
    findBookingIds (dumpList L) =
      L.foldr (fun d acc =>
        (match d.booking_id with | some n => [natDigits n] | none => []) ++ acc) [] := by
  unfold findBookingIds
  rw [findall_dumpList vpNum bookingKey L (fun d hd => dict_step_booking d (hpl d hd))]
  exact foldr_fun_congr L _ _ [] (fun d acc => by rw [dictCaptures_booking])

theorem findCarIds_dumpList (L : List BookingDict) (hpl : ∀ d ∈ L, dictPlain d) :
    findCarIds (dumpList L) =
      L.foldr (fun d acc =>
        (match d.car_id with | some n => [natDigits n] | none => []) ++ acc) [] := by
  unfold findCarIds
  rw [findall_dumpList vpNum carKey L (fun d hd => dict_step_car d (hpl d hd))]
  exact foldr_fun_congr L _ _ [] (fun d acc => by rw [dictCaptures_car])

theorem findNames_dumpList (L : List BookingDict) (hpl : ∀ d ∈ L, dictPlain d) :
    findNames (dumpList L) =
      L.foldr (fun d acc =>
        (match d.name with | some s => [s] | none => []) ++ acc) [] := by
  unfold findNames
  rw [findall_dumpList vpStr nameKey L (fun d hd => dict_step_name d (hpl d hd))]
  exact foldr_fun_congr L _ _ [] (fun d acc => by rw [dictCaptures_name])

theorem findStartDates_dumpList (L : List BookingDict) (hpl : ∀ d ∈ L, dictPlain d) :
    findStartDates (dumpList L) =
      L.foldr (fun d acc =>
        (match d.start_date with | some s => [s] | none => []) ++ acc) [] := by
  unfold findStartDates
  rw [findall_dumpList vpStr startKey L (fun d hd => dict_step_start d (hpl d hd))]
  exact foldr_fun_congr L _ _ [] (fun d acc => by rw [dictCaptures_start])

theorem findEndDates_dumpList (L : List BookingDict) (hpl : ∀ d ∈ L, dictPlain d) :
    findEndDates (dumpList L) =
      L.foldr (fun d acc =>
        (match d.end_date with | some s => [s] | none => []) ++ acc) [] := by
  unfold findEndDates
  rw [findall_dumpList vpStr endKey L (fun d hd => dict_step_end d (hpl d hd))]
  exact foldr_fun_congr L _ _ [] (fun d acc => by rw [dictCaptures_end])

theorem foldr_combine_booking (b c n s e : List Chars) :
    (combine b c n s e).foldr (fun d acc =>
      (match d.booking_id with | some nn => [natDigits nn] | none => []) ++ acc) [] =
    List.map (fun ds => natDigits (parseNat ds)) b := by
  unfold combine
  rw [List.foldr_map]
  rw [foldr_fun_congr _ _
    (fun i acc =>
      (match b.get? i with | some ds => [natDigits (parseNat ds)] | none => []) ++ acc) _
    (fun i acc => by
      show (match (b.get? i).map parseNat with
            | some nn => [natDigits nn] | none => []) ++ acc =
          (match b.get? i with | some ds => [natDigits (parseNat ds)] | none => []) ++ acc
      cases b.get? i with
      | none => rfl
      | some ds => rfl)]
  exact foldr_range_get b (fun ds => natDigits (parseNat ds)) _ (by omega)

theorem foldr_combine_car (b c n s e : List Chars) :
    (combine b c n s e).foldr (fun d acc =>
      (match d.car_id with | some nn => [natDigits nn] | none => []) ++ acc) [] =
    List.map (fun ds => natDigits (parseNat ds)) c := by
  unfold combine
  rw [List.foldr_map]
  rw [foldr_fun_congr _ _
    (fun i acc =>
      (match c.get? i with | some ds => [natDigits (parseNat ds)] | none => []) ++ acc) _
    (fun i acc => by
      show (match (c.get? i).map parseNat with
            | some nn => [natDigits nn] | none => []) ++ acc =
          (match c.get? i with | some ds => [natDigits (parseNat ds)] | none => []) ++ acc
      cases c.get? i with
      | none => rfl
      | some ds => rfl)]
  exact foldr_range_get c (fun ds => natDigits (parseNat ds)) _ (by omega)

theorem foldr_combine_name (b c n s e : List Chars) :
    (combine b c n s e).foldr (fun d acc =>
      (match d.name with | some s0 => [s0] | none => []) ++ acc) [] = n := by
  unfold combine
  rw [List.foldr_map]
  have hmap : n.map (fun v => v) = n := by simp
  exact (foldr_range_get n (fun v => v) _ (by omega)).trans hmap

theorem foldr_combine_start (b c n s e : List Chars) :
    (combine b c n s e).foldr (fun d acc =>
      (match d.start_date with | some s0 => [s0] | none => []) ++ acc) [] = s := by
  unfold combine
  rw [List.foldr_map]
  have hmap : s.map (fun v => v) = s := by simp
  exact (foldr_range_get s (fun v => v) _ (by omega)).trans hmap

theorem foldr_combine_end (b c n s e : List Chars) :
    (combine b c n s e).foldr (fun d acc =>
      (match d.end_date with | some s0 => [s0] | none => []) ++ acc) [] = e := by
  unfold combine
  rw [List.foldr_map]
  have hmap : e.map (fun v => v) = e := by simp
  exact (foldr_range_get e (fun v => v) _ (by omega)).trans hmap

/-- Re-extracting from the dump and re-combining reproduces the dict list:
the numeric captures round-trip through `parseNat`, the string captures are
taken verbatim. -/
theorem combine_roundtrip (b c n s e : List Chars) :
    combine (List.map (fun ds => natDigits (parseNat ds)) b)
      (List.map (fun ds => natDigits (parseNat ds)) c) n s e =
    combine b c n s e := by
  unfold combine
  simp only [List.length_map]
  apply List.map_congr_left
  intro i _
  have hbb : ((List.map (fun ds => natDigits (parseNat ds)) b).get? i).map parseNat =
      (b.get? i).map parseNat := by
    rw [List.get?_map]
    cases b.get? i with
    | none => rfl
    | some ds => simp [parseNat_natDigits]
  have hcc : ((List.map (fun ds => natDigits (parseNat ds)) c).get? i).map parseNat =
      (c.get? i).map parseNat := by
    rw [List.get?_map]
    cases c.get? i with
    | none => rfl
    | some ds => simp [parseNat_natDigits]
  rw [hbb, hcc]

/-- C5 (amended): the identifier-normalization rewrite is idempotent on every
content whose captured `name`, `start_date` and `end_date` strings consist of
plain printable ASCII (no quote, no backslash). The second pass then extracts
exactly the values the first pass serialized, and re-serializing them
reproduces the same string. (The unrestricted claim fails: a captured
backslash is escaped again by the second `json.dumps`; see
`update_tool_messages_not_idempotent`.) -/
theorem update_tool_messages_idem (content : Chars)
    (hplain : ∀ cap ∈ findNames content ++ findStartDates content ++ findEndDates content,
      ∀ ch ∈ cap, plainChar ch = true) :
    update_tool_messages (update_tool_messages content) = update_tool_messages content := by
  by_cases hemp : (combine (findBookingIds content) (findCarIds content) (findNames content)
      (findStartDates content) (findEndDates content)).isEmpty = true
  · have hfc : update_tool_messages content = content := by
      unfold update_tool_messages
      rw [if_pos hemp]
    rw [hfc, hfc]
  · have hn1 : ∀ cap ∈ findNames content, ∀ ch ∈ cap, plainChar ch = true :=
      fun cap hc => hplain cap (List.mem_append.mpr (Or.inl (List.mem_append.mpr (Or.inl hc))))
    have hs1 : ∀ cap ∈ findStartDates content, ∀ ch ∈ cap, plainChar ch = true :=
      fun cap hc => hplain cap (List.mem_append.mpr (Or.inl (List.mem_append.mpr (Or.inr hc))))
    have he1 : ∀ cap ∈ findEndDates content, ∀ ch ∈ cap, plainChar ch = true :=
      fun cap hc => hplain cap (List.mem_append.mpr (Or.inr hc))
    have hdp : ∀ d ∈ combine (findBookingIds content) (findCarIds content) (findNames content)
        (findStartDates content) (findEndDates content), dictPlain d := by
      intro d hd
      unfold combine at hd
      rw [List.mem_map] at hd
      obtain ⟨i, -, rfl⟩ := hd
      exact ⟨fun s0 hs0 => hn1 s0 (List.get?_mem hs0),
        fun s0 hs0 => hs1 s0 (List.get?_mem hs0),
        fun s0 hs0 => he1 s0 (List.get?_mem hs0)⟩
    have hfc : update_tool_messages content =
        dumpList (combine (findBookingIds content) (findCarIds content) (findNames content)
          (findStartDates content) (findEndDates content)) := by
      unfold update_tool_messages
      rw [if_neg hemp]
    rw [hfc]
    have hb2 : findBookingIds (dumpList (combine (findBookingIds content) (findCarIds content)
        (findNames content) (findStartDates content) (findEndDates content))) =
        List.map (fun ds => natDigits (parseNat ds)) (findBookingIds content) := by
      rw [findBookingIds_dumpList _ hdp, foldr_combine_booking]
    have hc2 : findCarIds (dumpList (combine (findBookingIds content) (findCarIds content)
        (findNames content) (findStartDates content) (findEndDates content))) =
        List.map (fun ds => natDigits (parseNat ds)) (findCarIds content) := by
      rw [findCarIds_dumpList _ hdp, foldr_combine_car]
    have hn2 : findNames (dumpList (combine (findBookingIds content) (findCarIds content)
        (findNames content) (findStartDates content) (findEndDates content))) =
        findNames content := by
      rw [findNames_dumpList _ hdp, foldr_combine_name]
    have hs2 : findStartDates (dumpList (combine (findBookingIds content) (findCarIds content)
        (findNames content) (findStartDates content) (findEndDates content))) =
        findStartDates content := by
      rw [findStartDates_dumpList _ hdp, foldr_combine_start]
    have he2 : findEndDates (dumpList (combine (findBookingIds content) (findCarIds content)
        (findNames content) (findStartDates content) (findEndDates content))) =
        findEndDates content := by
      rw [findEndDates_dumpList _ hdp, foldr_combine_end]
    unfold update_tool_messages
    rw [hb2, hc2, hn2, hs2, he2, combine_roundtrip]
    rw [ite_self]

/-- C5 counterexample: on the content `"name": "a\b"` the first rewrite
serializes the captured backslash as `\\`, and the second pass re-captures
and re-escapes it, so applying the rewrite twice differs from applying it
once. -/
theorem update_tool_messages_not_idempotent :
    update_tool_messages (update_tool_messages c5bad) ≠ update_tool_messages c5bad := by
  decide

/-- Witness for C5: the plain content `"name": "ok"` satisfies the amended
hypothesis and the rewrite is idempotent on it. -/
theorem update_tool_messages_idem_witness :
    update_tool_messages (update_tool_messages c5good) = update_tool_messages c5good :=
  update_tool_messages_idem c5good (by decide)

end CarAgent
